import Mathlib

/-!
Verification development for the GenesisGraph trust-verification core.

This file gives a shallow embedding, in Lean 4, of the security-sensitive parts
of the `genesisgraph` Python package:

* `genesisgraph/transparency_log.py` — RFC 6962 Merkle leaf/node hashing and the
  inclusion / consistency proof verifiers, plus the high-level transparency
  entry verifier;
* `genesisgraph/did_resolver.py` — `did:key` resolution (base58btc decoding and
  multicodec checking), the SSRF host blocklist, and the per-domain rate
  limiter;
* `genesisgraph/validator.py` — the canonical-JSON encoder and the
  Ed25519 signature verification step.

Bytes are modelled as `List Nat` (each entry a value `< 256`); Python integers
as `Int`/`Nat`; wall-clock timestamps as `ℚ`; fallible code as `Except`.
SHA-256 and SHA-512 are implemented concretely (FIPS 180-4) so that every
theorem about the verifiers can be evaluated on concrete inputs by the kernel.
Definitions translated from the Python source carry the source's names; the
separate RFC 6962 tree/proof constructions (`MTH`, `auditPath`, `consProof`)
implement the RFC's defining equations and are used only to state what an
*honestly produced* tree, audit path, or consistency proof is.
-/

namespace GG

/-! ## Bytes and 32/64-bit word helpers -/

/-- Bytes are lists of naturals; every producer below yields entries `< 256`. -/
abbrev Bytes := List Nat

/-- Decidable equality for `Except` results, so concrete runs of the embedded
verifiers can be settled by `decide`. -/
instance {ε α : Type} [DecidableEq ε] [DecidableEq α] : DecidableEq (Except ε α) := fun x y =>
  match x, y with
  | .ok a, .ok b =>
    if h : a = b then .isTrue (by rw [h]) else .isFalse (by simpa using h)
  | .error a, .error b =>
    if h : a = b then .isTrue (by rw [h]) else .isFalse (by simpa using h)
  | .ok _, .error _ => .isFalse (by simp)
  | .error _, .ok _ => .isFalse (by simp)

/-- Fuel-indexed binary logarithm (`log2f fuel n` halves `n` until it drops
below `2`).  Structural in the fuel, hence kernel-reducible, unlike
`Nat.log2` (which is defined by well-founded recursion). -/
def log2f : Nat → Nat → Nat
  | 0, _ => 0
  | fuel + 1, n => if 2 ≤ n then log2f fuel (n / 2) + 1 else 0

/-- Computable binary logarithm: greatest `e` with `2 ^ e ≤ n` (and `0` for
`n ∈ {0, 1}`). -/
def log2c (n : Nat) : Nat := log2f n n

/-- Mask to a 32-bit word. -/
def mask32 (x : Nat) : Nat := x &&& 0xffffffff

/-- Mask to a 64-bit word. -/
def mask64 (x : Nat) : Nat := x &&& 0xffffffffffffffff

/-- Right-rotation of a 32-bit word. -/
def rotr32 (x n : Nat) : Nat := mask32 ((x >>> n) ||| (x <<< (32 - n)))

/-- Right-rotation of a 64-bit word. -/
def rotr64 (x n : Nat) : Nat := mask64 ((x >>> n) ||| (x <<< (64 - n)))

/-- Big-endian bytes of a 32-bit word. -/
def be32 (x : Nat) : Bytes :=
  [(x >>> 24) &&& 255, (x >>> 16) &&& 255, (x >>> 8) &&& 255, x &&& 255]

/-- Big-endian bytes of a 64-bit word. -/
def be64 (x : Nat) : Bytes :=
  [(x >>> 56) &&& 255, (x >>> 48) &&& 255, (x >>> 40) &&& 255, (x >>> 32) &&& 255,
   (x >>> 24) &&& 255, (x >>> 16) &&& 255, (x >>> 8) &&& 255, x &&& 255]

/-- Interpret 4 consecutive bytes (big-endian) starting at offset `4*i` as a word. -/
def word32At (bs : Bytes) (i : Nat) : Nat :=
  (bs.getD (4*i) 0) <<< 24 ||| (bs.getD (4*i+1) 0) <<< 16 |||
  (bs.getD (4*i+2) 0) <<< 8 ||| (bs.getD (4*i+3) 0)

/-- Interpret 8 consecutive bytes (big-endian) starting at offset `8*i` as a word. -/
def word64At (bs : Bytes) (i : Nat) : Nat :=
  (bs.getD (8*i) 0) <<< 56 ||| (bs.getD (8*i+1) 0) <<< 48 |||
  (bs.getD (8*i+2) 0) <<< 40 ||| (bs.getD (8*i+3) 0) <<< 32 |||
  (bs.getD (8*i+4) 0) <<< 24 ||| (bs.getD (8*i+5) 0) <<< 16 |||
  (bs.getD (8*i+6) 0) <<< 8 ||| (bs.getD (8*i+7) 0)

/-! ## SHA-256 (FIPS 180-4) -/

/-- Round constants of SHA-256. -/
def sha256K : List Nat := [
  1116352408, 1899447441, 3049323471, 3921009573, 961987163,
  1508970993, 2453635748, 2870763221, 3624381080, 310598401,
  607225278, 1426881987, 1925078388, 2162078206, 2614888103,
  3248222580, 3835390401, 4022224774, 264347078, 604807628,
  770255983, 1249150122, 1555081692, 1996064986, 2554220882,
  2821834349, 2952996808, 3210313671, 3336571891, 3584528711,
  113926993, 338241895, 666307205, 773529912, 1294757372,
  1396182291, 1695183700, 1986661051, 2177026350, 2456956037,
  2730485921, 2820302411, 3259730800, 3345764771, 3516065817,
  3600352804, 4094571909, 275423344, 430227734, 506948616,
  659060556, 883997877, 958139571, 1322822218, 1537002063,
  1747873779, 1955562222, 2024104815, 2227730452, 2361852424,
  2428436474, 2756734187, 3204031479, 3329325298]

/-- Initial hash state of SHA-256. -/
def sha256H0 : List Nat := [
  1779033703, 3144134277, 1013904242,
  2773480762, 1359893119, 2600822924,
  528734635, 1541459225]

/-- SHA-256 message padding: append `0x80`, zeros, and the 64-bit bit length. -/
def sha256Pad (msg : Bytes) : Bytes :=
  let L := msg.length
  let z := (119 - (L % 64)) % 64
  msg ++ [0x80] ++ List.replicate z 0 ++ be64 (8 * L)

/-- Message schedule: the 16 block words extended to 64 words.  Computed with
a sliding 16-word window (`win` holds `w[t-16] … w[t-1]`, newest last). -/
def sha256Schedule (block : Bytes) : List Nat :=
  let w0 := (List.range 16).map (word32At block)
  let ext := (List.range 48).foldl (fun (st : List Nat × List Nat) _ =>
    let win := st.1
    let x15 := win.getD 1 0
    let x2 := win.getD 14 0
    let s0 := (rotr32 x15 7) ^^^ (rotr32 x15 18) ^^^ (x15 >>> 3)
    let s1 := (rotr32 x2 17) ^^^ (rotr32 x2 19) ^^^ (x2 >>> 10)
    let nw := mask32 (win.getD 0 0 + s0 + win.getD 9 0 + s1)
    (win.tail ++ [nw], nw :: st.2)) (w0, [])
  w0 ++ ext.2.reverse

/-- One SHA-256 compression step over the state `[a,b,c,d,e,f,g,h]`. -/
def sha256Round (st : List Nat) (kw : Nat × Nat) : List Nat :=
  match st with
  | [a, b, c, d, e, f, g, h] =>
    let S1 := (rotr32 e 6) ^^^ (rotr32 e 11) ^^^ (rotr32 e 25)
    let ch := (e &&& f) ^^^ ((0xffffffff ^^^ e) &&& g)
    let t1 := mask32 (h + S1 + ch + kw.1 + kw.2)
    let S0 := (rotr32 a 2) ^^^ (rotr32 a 13) ^^^ (rotr32 a 22)
    let mj := (a &&& b) ^^^ (a &&& c) ^^^ (b &&& c)
    let t2 := mask32 (S0 + mj)
    [mask32 (t1 + t2), a, b, c, mask32 (d + t1), e, f, g]
  | other => other

/-- Compress one 64-byte block into the running state. -/
def sha256Compress (h : List Nat) (block : Bytes) : List Nat :=
  let w := sha256Schedule block
  let fin := (sha256K.zip w).foldl sha256Round h
  (h.zip fin).map (fun p => mask32 (p.1 + p.2))

/-- SHA-256 digest (32 bytes) of a byte string. -/
def sha256 (msg : Bytes) : Bytes :=
  let padded := sha256Pad msg
  let n := padded.length / 64
  let hh := (List.range n).foldl
    (fun h i => sha256Compress h ((padded.drop (64 * i)).take 64)) sha256H0
  (hh.map be32).flatten

/-! ## Embedding of `genesisgraph/transparency_log.py` (`RFC6962Verifier`) -/

/-- Security limit `MAX_TREE_SIZE = 2**63 - 1` from `transparency_log.py`. -/
def MAX_TREE_SIZE : Int := 2 ^ 63 - 1

/-- Security limit `MAX_PROOF_NODES = 64` from `transparency_log.py`. -/
def MAX_PROOF_NODES : Nat := 64

/-- Security limit `MAX_PROOF_LENGTH = 1024 * 1024` from `transparency_log.py`. -/
def MAX_PROOF_LENGTH : Nat := 1024 * 1024

/-- Exceptions raised by `transparency_log.py`: `InvalidTreeError`,
`InvalidProofError`, and Python's built-in `IndexError` (reachable in
`_verify_consistency_proof_impl` when `proof[i]` is read past the end). -/
inductive TLError where
  | invalidTree (msg : String)
  | invalidProof (msg : String)
  | indexError
deriving DecidableEq, Repr

/-- Embedding of `RFC6962Verifier.hash_leaf`: `SHA-256(0x00 || data)`. -/
def hash_leaf (data : Bytes) : Bytes := sha256 (0x00 :: data)

/-- Embedding of `RFC6962Verifier.hash_children`:
`SHA-256(0x01 || left || right)`. -/
def hash_children (left right : Bytes) : Bytes := sha256 (0x01 :: (left ++ right))

/-- Embedding of `RFC6962Verifier.verify_inclusion_proof`. Input validation
mirrors the Python `raise` statements; the audit-path walk folds over
`proof_nodes`, hashing `(current, sibling)` when the current index is even and
`(sibling, current)` when odd, halving the index each step, and finally
compares against `rootHash`. -/
def verify_inclusion_proof (leafHash : Bytes) (treeSize leafIndex : Int)
    (proofNodes : List Bytes) (rootHash : Bytes) : Except TLError Bool :=
  if leafIndex < 0 ∨ leafIndex ≥ treeSize then
    .error (.invalidTree ("Leaf index " ++ toString leafIndex ++
      " out of range for tree size " ++ toString treeSize))
  else if treeSize ≤ 0 ∨ treeSize > MAX_TREE_SIZE then
    .error (.invalidTree ("Invalid tree size: " ++ toString treeSize))
  else if proofNodes.length > MAX_PROOF_NODES then
    .error (.invalidProof ("Proof too long: " ++ toString proofNodes.length ++ " nodes"))
  else if leafHash.length ≠ 32 then
    .error (.invalidProof ("Invalid leaf hash length: " ++ toString leafHash.length))
  else if rootHash.length ≠ 32 then
    .error (.invalidProof ("Invalid root hash length: " ++ toString rootHash.length))
  else
    match proofNodes.enum.find? (fun p => p.2.length ≠ 32) with
    | some p => .error (.invalidProof ("Invalid proof node " ++ toString p.1 ++ " length"))
    | none =>
      let fin := proofNodes.foldl
        (fun (st : Bytes × Int) node =>
          let cur := if st.2 % 2 = 0 then hash_children st.1 node
                     else hash_children node st.1
          (cur, st.2 / 2))
        (leafHash, leafIndex)
      .ok (fin.1 = rootHash)

/-- Embedding of `RFC6962Verifier._get_power_of_2`: the loop
`k = 1; while k * 2 <= n: k *= 2` yields the largest power of two `≤ n` for
`n ≥ 2`, and `1` for `n < 2` (including negative `n`, for which the loop body
never runs). -/
def get_power_of_2 (n : Int) : Int :=
  if n < 2 then 1 else (2 : Int) ^ log2c n.toNat

/-- Embedding of `RFC6962Verifier._count_bits`: number of bits needed to
represent `n` (`0` for `n = 0`). -/
def count_bits (n : Nat) : Nat :=
  if n = 0 then 0 else log2c n + 1

/-- The loop `k = 1; while k * 2 < n: k *= 2` from the consistency verifier:
the largest power of two strictly below `n`, except `k = 1` when `n ≤ 2`.
Note that for `n` itself a power of two (`n ≥ 4`) this is `n / 2`, so the
`n1 == k` test in `_verify_consistency_proof_impl` is `False` for every
power of two `n1 ≥ 4`. -/
def k_below (n : Nat) : Nat :=
  if n ≤ 2 then 1 else 2 ^ log2c (n - 1)

/-- State of the second (`new_hash`) reconstruction loop in
`_verify_consistency_proof_impl`: `fn`, `sn` (Python ints, which may go
negative), the accumulated hash, and whether the loop has hit `break`. -/
structure ConsLoopState where
  fn : Int
  sn : Int
  newHash : Bytes
  done : Bool
deriving Repr

/-- Embedding of `RFC6962Verifier._verify_consistency_proof_impl` (the branch
structure, loops, and the reachable `IndexError` follow the Python line by
line; `n1 ≥ 1` and `n1 < n2` hold at every call site after the outer
validation). -/
def verify_consistency_impl (n1 n2 : Nat) (hash1 hash2 : Bytes)
    (proof : List Bytes) : Except TLError Bool :=
  if n1 = n2 then .ok (hash1 = hash2 ∧ proof.length = 0 : Bool)
  else if n1 = 0 then .ok true
  else
    let k := k_below n1
    if n1 = k then
      -- `n1 == k` branch (taken only for `n1 ∈ {1, 2}` given `k_below`)
      if proof.length = 0 then .ok false
      else if hash1 ≠ proof.headD [] then .ok false
      else
        let st0 : ConsLoopState := ⟨(k : Int), (n1 : Int) - (k : Int), proof.headD [], false⟩
        let fin := (proof.drop 1).foldl
          (fun st node =>
            if st.sn = 0 then
              { st with newHash := hash_children st.newHash node, fn := st.fn * 2 }
            else if st.fn = get_power_of_2 st.sn then
              let fn := st.fn + st.sn
              { st with newHash := hash_children st.newHash node, fn := fn,
                        sn := (n2 : Int) - fn }
            else
              { st with newHash := hash_children node st.newHash,
                        sn := st.sn - get_power_of_2 st.sn })
          st0
        .ok (fin.newHash = hash2)
    else
      -- `n1` not (recognised as) a power of two
      if proof.length = 0 then .ok false
      else
        let b := count_bits (n1 - 1)
        -- `for i in range(1, b): old_hash = hash_children(proof[i], old_hash)`
        -- raises IndexError as soon as `i` reaches `len(proof)`.
        if proof.length < b then .error .indexError
        else
          let oldHash := ((proof.take b).drop 1).foldl
            (fun acc node => hash_children node acc) (proof.headD [])
          if oldHash ≠ hash1 then .ok false
          else
            let st0 : ConsLoopState :=
              ⟨(k : Int), (n1 : Int) - (k : Int), proof.headD [], false⟩
            let fin := (proof.drop 1).foldl
              (fun st node =>
                if st.done ∨ st.fn = (n2 : Int) then { st with done := true }
                else if st.sn = 0 then
                  { st with newHash := hash_children st.newHash node, fn := st.fn * 2 }
                else
                  let snp := get_power_of_2 st.sn
                  if st.fn + snp ≤ (n2 : Int) then
                    { st with newHash := hash_children st.newHash node,
                              fn := st.fn + snp, sn := st.sn - snp }
                  else
                    { st with newHash := hash_children node st.newHash,
                              sn := (n2 : Int) - st.fn })
              st0
            .ok (fin.newHash = hash2)

/-- Embedding of `RFC6962Verifier.verify_consistency_proof`: input validation
followed by the special cases and the call to the internal implementation. -/
def verify_consistency_proof (treeSize1 treeSize2 : Int) (rootHash1 rootHash2 : Bytes)
    (proofNodes : List Bytes) : Except TLError Bool :=
  if treeSize1 < 0 ∨ treeSize1 > MAX_TREE_SIZE then
    .error (.invalidTree ("Invalid tree_size_1: " ++ toString treeSize1))
  else if treeSize2 < 0 ∨ treeSize2 > MAX_TREE_SIZE then
    .error (.invalidTree ("Invalid tree_size_2: " ++ toString treeSize2))
  else if treeSize1 > treeSize2 then
    .error (.invalidTree "tree_size_1 must be <= tree_size_2")
  else if rootHash1.length ≠ 32 ∨ rootHash2.length ≠ 32 then
    .error (.invalidProof "Root hashes must be 32 bytes")
  else if treeSize1 = treeSize2 then
    if proofNodes.length ≠ 0 then
      .error (.invalidProof "Proof must be empty for identical trees")
    else .ok (rootHash1 = rootHash2)
  else if treeSize1 = 0 then .ok true
  else if proofNodes.length > MAX_PROOF_NODES then
    .error (.invalidProof ("Proof too long: " ++ toString proofNodes.length ++ " nodes"))
  else
    verify_consistency_impl treeSize1.toNat treeSize2.toNat rootHash1 rootHash2 proofNodes

/-! ## RFC 6962 honest trees and proofs (the specification side)

These definitions implement the defining equations of RFC 6962 §2.1:
the Merkle tree hash `MTH`, the audit path `PATH(m, D[n])`, and the
consistency proof `PROOF(m, D[n]) = SUBPROOF(m, D[n], true)`.  They are not
part of the Python source; they are used to state what the honestly built
tree, audit path, and consistency proof for a list of leaves are.  All are
fuel-indexed (structural recursion on fuel, with the fuel instantiated to the
leaf count) so the kernel can evaluate them on concrete inputs. -/

/-- Split point of RFC 6962: the largest power of two strictly below `n`
(defined for `n ≥ 2`). -/
def rfcSplit (n : Nat) : Nat := 2 ^ log2c (n - 1)

/-- Fuel-indexed RFC 6962 Merkle tree hash. -/
def MTHf : Nat → List Bytes → Bytes
  | _, [] => sha256 []
  | _, [d] => hash_leaf d
  | 0, _ => []   -- out of fuel; never reached when fuel ≥ length
  | fuel + 1, leaves =>
    let k := rfcSplit leaves.length
    hash_children (MTHf fuel (leaves.take k)) (MTHf fuel (leaves.drop k))

/-- RFC 6962 Merkle tree hash `MTH(D[n])`. -/
def MTH (leaves : List Bytes) : Bytes := MTHf leaves.length leaves

/-- Fuel-indexed RFC 6962 audit path `PATH(m, D[n])`. -/
def auditPathF : Nat → Nat → List Bytes → List Bytes
  | _, _, [] => []
  | _, _, [_] => []
  | 0, _, _ => []
  | fuel + 1, m, leaves =>
    let k := rfcSplit leaves.length
    if m < k then auditPathF fuel m (leaves.take k) ++ [MTH (leaves.drop k)]
    else auditPathF fuel (m - k) (leaves.drop k) ++ [MTH (leaves.take k)]

/-- RFC 6962 audit path `PATH(m, D[n])` for leaf index `m`. -/
def auditPath (m : Nat) (leaves : List Bytes) : List Bytes :=
  auditPathF leaves.length m leaves

/-- Fuel-indexed RFC 6962 `SUBPROOF(m, D[n], b)`:
`SUBPROOF(m, D[m], true) = {}`, `SUBPROOF(m, D[m], false) = {MTH(D[m])}`,
and for `m < n` with `k` the largest power of two below `n`,
`SUBPROOF(m, D[n], b) = SUBPROOF(m, D[0:k], b) : MTH(D[k:n])` when `m ≤ k`,
else `SUBPROOF(m-k, D[k:n], false) : MTH(D[0:k])`. -/
def subproofF : Nat → Nat → List Bytes → Bool → List Bytes
  | 0, _, _, _ => []
  | fuel + 1, m, leaves, b =>
    if m = leaves.length then
      if b then [] else [MTH leaves]
    else
      let k := rfcSplit leaves.length
      if m ≤ k then
        subproofF fuel m (leaves.take k) b ++ [MTH (leaves.drop k)]
      else
        subproofF fuel (m - k) (leaves.drop k) false ++ [MTH (leaves.take k)]

/-- RFC 6962 consistency proof `PROOF(m, D[n])`. -/
def consProof (m : Nat) (leaves : List Bytes) : List Bytes :=
  subproofF leaves.length m leaves true

end GG

namespace GG

/-! ## Embedding of `genesisgraph/did_resolver.py`

String manipulation is carried out on `List Char` (a Lean `String` is a list
of unicode scalar values, exactly the value model of a Python `str`).
Each distinct `raise ValidationError(...)` site becomes a constructor of
`ResErr` carrying the data interpolated into its message. -/

/-- Distinct `ValidationError` raise sites of `did_resolver.py` (plus the
`IndexError` reachable from `multibase_key[0]` on an empty multibase part). -/
inductive ResErr where
  | didTooLong (n : Nat)
  | invalidDidFormat (did : String)
  | invalidDidKey (did : String)
  | emptyMultibaseIndexError
  | unsupportedMultibase (c : Char)
  | decodeFailed (msg : String)
  | didKeyTooShort (n : Nat)
  | unsupportedKeyType (got0 got1 : Nat)
  | invalidKeyLength (n : Nat)
  | unsupportedMethod (m : String)
  | invalidDidWeb (did : String)
  | blockedHost (domain : String)
  | rateLimitExceeded (domain : String)
deriving DecidableEq, Repr

/-- Security limit `MAX_BASE58_LENGTH = 128` from `did_resolver.py`. -/
def MAX_BASE58_LENGTH : Nat := 128

/-- Security limit `MAX_DID_LENGTH = 512` from `did_resolver.py`. -/
def MAX_DID_LENGTH : Nat := 512

/-- Python `int.bit_length`. -/
def bitLength (n : Nat) : Nat := if n = 0 then 0 else log2c n + 1

/-- Big-endian base-256 digits of `n` (empty for `n = 0`), fuel-indexed so the
kernel can evaluate it; mirrors the `while num > 0: divmod(num, 256)` loop. -/
def natBytesF : Nat → Nat → Bytes
  | 0, _ => []
  | fuel + 1, n => if n = 0 then [] else natBytesF fuel (n / 256) ++ [n % 256]

/-- Big-endian bytes of a natural number. -/
def natBytesBE (n : Nat) : Bytes := natBytesF n n

/-- The Bitcoin-style base58 alphabet of `DIDResolver._base58_decode`. -/
def B58_ALPHABET : List Char :=
  "123456789ABCDEFGHJKLMNPQRSTUVWXYZabcdefghijkmnopqrstuvwxyz".data

/-- Index of a character in the base58 alphabet (`ALPHABET.index(char)`). -/
def b58Index (c : Char) : Option Nat := B58_ALPHABET.indexOf? c

/-- Embedding of `DIDResolver._base58_decode` (raised `ValueError`s become
`Except.error` with the corresponding message). -/
def base58_decode (s : List Char) : Except String Bytes :=
  if MAX_BASE58_LENGTH < s.length then
    .error ("Base58 string too long: " ++ toString s.length)
  else if s.any (fun c => b58Index c = none) then
    .error "Invalid base58 character"
  else
    let num := s.foldl (fun n c => n * 58 + ((b58Index c).getD 0)) 0
    if 1024 < bitLength num then
      .error ("Decoded base58 value too large: " ++ toString (bitLength num) ++ " bits")
    else
      let leadingZeros := (s.takeWhile (fun c => c = '1')).length
      if num = 0 then .ok (List.replicate leadingZeros 0)
      else .ok (List.replicate leadingZeros 0 ++ natBytesBE num)

/-- Embedding of `DIDResolver._resolve_did_key`: strip `did:key:`, require the
`z` multibase tag, base58-decode, check the Ed25519 multicodec bytes
`0xED 0x01`, and slice `decoded[2:34]` as the key (Python slicing truncates,
so over-long payloads lose their tail rather than being rejected). -/
def resolve_did_key (did : String) : Except ResErr Bytes :=
  if ¬ ("did:key:".data.isPrefixOf did.data) then .error (.invalidDidKey did)
  else
    let multibaseKey := did.data.drop 8
    if multibaseKey = [] then .error .emptyMultibaseIndexError
    else if ¬ ("z".data.isPrefixOf multibaseKey) then
      .error (.unsupportedMultibase (multibaseKey.headD ' '))
    else
      match base58_decode (multibaseKey.drop 1) with
      | .error m => .error (.decodeFailed m)
      | .ok decoded =>
        if decoded.length < 2 then .error (.didKeyTooShort decoded.length)
        else if decoded.getD 0 0 ≠ 0xED ∨ decoded.getD 1 0 ≠ 0x01 then
          .error (.unsupportedKeyType (decoded.getD 0 0) (decoded.getD 1 0))
        else
          let publicKey := (decoded.drop 2).take 32
          if publicKey.length ≠ 32 then .error (.invalidKeyLength publicKey.length)
          else .ok publicKey

/-- Message text of the Ed25519 multicodec mismatch, as raised by
`_resolve_did_key` — it names the expected bytes (`0xed01`) and the received
bytes. -/
def unsupportedKeyTypeMsg (got0 got1 : Nat) : String :=
  "Unsupported key type in did:key. Expected Ed25519 (0xed01), got 0x" ++
    (Nat.toDigits 16 got0).asString ++ (Nat.toDigits 16 got1).asString

/-- The `BLOCKED_HOSTS` set of `did_resolver.py`. -/
def BLOCKED_HOSTS : List String :=
  ["localhost", "127.0.0.1", "0.0.0.0", "169.254.169.254", "::1", "::ffff:127.0.0.1"]

/-- Python's `str.split(sep)` for a single-character separator, on character
lists (splitting `""` yields `[""]`, like Python). -/
def splitChar (sep : Char) (cs : List Char) : List (List Char) :=
  cs.foldr (fun c acc =>
    if c = sep then [] :: acc else (c :: acc.headD []) :: acc.tail) [[]]

/-- A strict IPv4 dotted-quad parser mirroring `ipaddress.ip_address` for
IPv4 literals: exactly four octets, each 1–3 decimal digits with no leading
zero, value at most 255. -/
def parseIPv4 (s : List Char) : Option Nat :=
  let parts := splitChar '.' s
  if parts.length ≠ 4 then none
  else if parts.all (fun p =>
      !p.isEmpty && decide (p.length ≤ 3) && p.all (fun c => c.isDigit) &&
      (if p.headD '0' = '0' then decide (p.length = 1) else true) &&
      decide (p.foldl (fun n c => n * 10 + (c.toNat - 48)) 0 ≤ 255)) then
    some (parts.foldl (fun acc p =>
      acc * 256 + p.foldl (fun n c => n * 10 + (c.toNat - 48)) 0) 0)
  else none

/-- The IPv4 members of `BLOCKED_NETWORKS`, as (network address, mask bits):
`10.0.0.0/8`, `172.16.0.0/12`, `192.168.0.0/16`, `169.254.0.0/16`,
`127.0.0.0/8`. -/
def BLOCKED_NETWORKS_V4 : List (Nat × Nat) :=
  [(0x0a000000, 8), (0xac100000, 12), (0xc0a80000, 16), (0xa9fe0000, 16), (0x7f000000, 8)]

/-- Embedding of `DIDResolver._is_blocked_host`: lowercase hostname lookup in
`BLOCKED_HOSTS`, then — when the domain parses as an IP literal — membership
in the blocked networks.  Only the IPv4 literal path is modelled: the IPv6
entries of `BLOCKED_NETWORKS` (`fc00::/7`, `fe80::/10`, `::1/128`) are
reachable only by strings containing `:`, and every such blocked source in
the specification (`::1`, `::ffff:127.0.0.1`) is already matched by the
hostname set before `ipaddress` is consulted. -/
def is_blocked_host (domain : String) : Bool :=
  if BLOCKED_HOSTS.contains ⟨domain.data.map Char.toLower⟩ then true
  else
    match parseIPv4 domain.data with
    | some ip => BLOCKED_NETWORKS_V4.any (fun nw => ip >>> (32 - nw.2) = nw.1 >>> (32 - nw.2))
    | none => false

/-- The resolver's per-domain rate-limit table `self._rate_limits`
(`domain -> list of request timestamps`), as an association list. -/
abbrev RateLimits := List (String × List ℚ)

/-- Store `v` under key `k` (replace in place if present, else append) —
the effect of `self._rate_limits[domain] = ...`. -/
def setRate (m : RateLimits) (k : String) (v : List ℚ) : RateLimits :=
  if m.any (fun p => p.1 = k) then m.map (fun p => if p.1 = k then (k, v) else p)
  else m ++ [(k, v)]

/-- Embedding of `DIDResolver._check_rate_limit`: prune the domain's window to
the trailing 60 seconds, fail if it already holds `rate_limit_max` entries
(the pruned window is still written back), and only otherwise append `now`. -/
def check_rate_limit (limits : RateLimits) (rateLimitMax : Nat) (domain : String)
    (now : ℚ) : Except ResErr Unit × RateLimits :=
  let window := (limits.lookup domain).getD []
  let pruned := window.filter (fun t => now - 60 < t)
  if rateLimitMax ≤ pruned.length then
    (.error (.rateLimitExceeded domain), setRate limits domain pruned)
  else
    (.ok (), setRate limits domain (pruned ++ [now]))

/-- Embedding of the pre-network part of `DIDResolver._resolve_did_web`:
format check, domain/path split on `:`, the SSRF block check, the rate-limit
check, and construction of the URL that the function would then pass to
`requests.get`.  The returned `String` marks exactly the point where the
Python issues the network fetch; every `Except.error` is raised before any
request is made.  (`REQUESTS_AVAILABLE` is modelled as true.) -/
def resolve_did_web_request (did : String) (limits : RateLimits) (rateLimitMax : Nat)
    (now : ℚ) : Except ResErr String × RateLimits :=
  if ¬ ("did:web:".data.isPrefixOf did.data) then (.error (.invalidDidWeb did), limits)
  else
    let parts := splitChar ':' (did.data.drop 8)
    let domain : String := ⟨parts.headD []⟩
    let pathParts : List String := (parts.drop 1).map (fun p => ⟨p⟩)
    if is_blocked_host domain then (.error (.blockedHost domain), limits)
    else
      match check_rate_limit limits rateLimitMax domain now with
      | (.error e, limits') => (.error e, limits')
      | (.ok _, limits') =>
        let url :=
          if pathParts ≠ [] then
            "https://" ++ domain ++ "/" ++ (String.intercalate "/" pathParts) ++ "/did.json"
          else
            "https://" ++ domain ++ "/.well-known/did.json"
        (.ok url, limits')


/-! ## Python-style base64 / hex / int decoding (for `TransparencyLogVerifier`) -/

/-- The standard base64 alphabet. -/
def B64_ALPHABET : List Char :=
  "ABCDEFGHIJKLMNOPQRSTUVWXYZabcdefghijklmnopqrstuvwxyz0123456789+/".data

/-- Index of a character in the base64 alphabet. -/
def b64Index (c : Char) : Option Nat := B64_ALPHABET.indexOf? c

/-- Decode a list of base64 quads; a quad containing padding ends the data
(later quads are ignored, as in CPython's `binascii.a2b_base64`). -/
def b64Quads : List (List Char) → Except String Bytes
  | [] => .ok []
  | q :: rest =>
    match q with
    | [a, b, c, d] =>
      if a = '=' then .ok []
      else if b = '=' then .error "Invalid base64-encoded string"
      else
        let va := (b64Index a).getD 0
        let vb := (b64Index b).getD 0
        if c = '=' then
          if d = '=' then .ok [va <<< 2 ||| vb >>> 4] else .error "Incorrect padding"
        else
          let vc := (b64Index c).getD 0
          if d = '=' then .ok [va <<< 2 ||| vb >>> 4, (vb &&& 15) <<< 4 ||| vc >>> 2]
          else
            let vd := (b64Index d).getD 0
            match b64Quads rest with
            | .error e => .error e
            | .ok tl => .ok ([va <<< 2 ||| vb >>> 4, (vb &&& 15) <<< 4 ||| vc >>> 2,
                (vc &&& 3) <<< 6 ||| vd] ++ tl)
    | _ => .error "Incorrect padding"

/-- Group a list into quads (fuel-indexed). -/
def quadsF : Nat → List Char → List (List Char)
  | 0, _ => []
  | _, [] => []
  | fuel + 1, cs => cs.take 4 :: quadsF fuel (cs.drop 4)

/-- Python's `base64.b64decode` (default non-validating mode): discard
characters outside the alphabet and `=`, require a multiple of four, decode
quad by quad, stopping at the first padded quad. -/
def b64decode (s : List Char) : Except String Bytes :=
  let kept := s.filter (fun c => (b64Index c).isSome || c = '=')
  if kept.length % 4 ≠ 0 then .error "Incorrect padding"
  else b64Quads (quadsF kept.length kept)

/-- Value of a hex digit. -/
def hexVal (c : Char) : Nat :=
  if c.isDigit then c.toNat - 48
  else if 'a' ≤ c ∧ c ≤ 'f' then c.toNat - 87
  else if 'A' ≤ c ∧ c ≤ 'F' then c.toNat - 55
  else 0

/-- Hex digit test. -/
def isHexDigitChar (c : Char) : Bool :=
  c.isDigit || ('a' ≤ c && c ≤ 'f') || ('A' ≤ c && c ≤ 'F')

/-- Byte pairs of a hex string (fuel-indexed). -/
def hexPairsF : Nat → List Char → Bytes
  | 0, _ => []
  | _, [] => []
  | fuel + 1, c1 :: c2 :: cs => (hexVal c1 <<< 4 ||| hexVal c2) :: hexPairsF fuel cs
  | _ + 1, [_] => []

/-- Python's `bytes.fromhex` on whitespace-free input: an even number of hex
digits, else `ValueError`. -/
def bytesFromHex (s : List Char) : Except String Bytes :=
  if s.all isHexDigitChar ∧ s.length % 2 = 0 then .ok (hexPairsF s.length s)
  else .error "non-hexadecimal number found in fromhex() arg"

/-- Python's `int(s)` on a decimal string (optional sign), else `ValueError`. -/
def pyIntDec (s : List Char) : Except String Int :=
  let body := if "-".data.isPrefixOf s then s.drop 1 else s
  if body ≠ [] ∧ body.all Char.isDigit then
    let n : Int := body.foldl (fun n c => n * 10 + (c.toNat - 48 : Int)) 0
    .ok (if "-".data.isPrefixOf s then -n else n)
  else .error "invalid literal for int()"

/-- Python's `int(s, 16)` on a `0x`-prefixed string. -/
def pyIntHex (s : List Char) : Except String Int :=
  let body := s.drop 2
  if body ≠ [] ∧ body.all isHexDigitChar then
    .ok (body.foldl (fun n c => n * 16 + (hexVal c : Int)) 0)
  else .error "invalid literal for int() with base 16"

/-! ## Embedding of `TransparencyLogVerifier` -/

/-- Security limit `MAX_LOG_ID_LENGTH = 256`. -/
def MAX_LOG_ID_LENGTH : Nat := 256

/-- Security limit `MAX_ENTRY_ID_LENGTH = 128`. -/
def MAX_ENTRY_ID_LENGTH : Nat := 128

/-- A transparency log entry dictionary as consumed by
`verify_transparency_entry`: `none` models an absent field (for `tree_size`,
also a value that is not an `int`), `Sum.inl`/`Sum.inr` the `str`/`int` forms
of `entry_id`.  The optional expected root is the `root_hash` field. -/
structure TLEntry where
  log_id : Option String := none
  entry_id : Option (String ⊕ Int) := none
  tree_size : Option Int := none
  inclusion_proof : Option String := none
  rootHash : Option String := none
deriving DecidableEq, Repr

/-- Strip the optional `base64:` tag from an `inclusion_proof` value. -/
def stripB64Tag (p : String) : String :=
  if "base64:".data.isPrefixOf p.data then ⟨p.data.drop 7⟩ else p

/-- Split bytes into consecutive 32-byte chunks (fuel-indexed). -/
def chunks32F : Nat → Bytes → List Bytes
  | 0, _ => []
  | _, [] => []
  | fuel + 1, bs => bs.take 32 :: chunks32F fuel (bs.drop 32)

/-- Embedding of `TransparencyLogVerifier._verify_inclusion_proof`: the body
sits in one big `try`, so every decoding exception (base64, hex, int
parsing) surfaces as a `Failed to decode inclusion proof` message, while
`InvalidProofError`/`InvalidTreeError` from the RFC 6962 verifier are caught
separately and stringified, and a clean `False` becomes the
`Inclusion proof verification failed` message. -/
def verify_inclusion_proof_entry (entry : TLEntry) (leaf_data : Bytes)
    (context : String) : List String :=
  let p := stripB64Tag (entry.inclusion_proof.getD "")
  match b64decode p.data with
  | .error e => [context ++ ": Failed to decode inclusion proof: " ++ e]
  | .ok proofBytes =>
    if MAX_PROOF_LENGTH < proofBytes.length then
      [context ++ ": Proof too large: " ++ toString proofBytes.length ++ " bytes"]
    else if proofBytes.length % 32 ≠ 0 then
      [context ++ ": Proof length not multiple of 32: " ++ toString proofBytes.length]
    else
      let proofNodes := chunks32F proofBytes.length proofBytes
      match entry.rootHash with
      | none => []
      | some rh =>
        if rh = "" then []
        else
          let hexPart := if "sha256:".data.isPrefixOf rh.data then rh.data.drop 7 else rh.data
          match bytesFromHex hexPart with
          | .error e => [context ++ ": Failed to decode inclusion proof: " ++ e]
          | .ok rootBytes =>
            let leafHash := hash_leaf leaf_data
            let leafIndexE :=
              match entry.entry_id.getD (.inr 0) with
              | .inl s => if "0x".data.isPrefixOf s.data then pyIntHex s.data else pyIntDec s.data
              | .inr i => .ok i
            match leafIndexE with
            | .error e => [context ++ ": Failed to decode inclusion proof: " ++ e]
            | .ok leafIndex =>
              let treeSize := (entry.tree_size).getD 0
              match verify_inclusion_proof leafHash treeSize leafIndex proofNodes rootBytes with
              | .ok true => []
              | .ok false => [context ++ ": Inclusion proof verification failed"]
              | .error (.invalidTree m) => [context ++ ": " ++ m]
              | .error (.invalidProof m) => [context ++ ": " ++ m]
              | .error .indexError => [context ++ ": Proof verification failed: index error"]

/-- Embedding of `TransparencyLogVerifier.verify_transparency_entry`:
structural field validation with early returns, the `...`-truncation escape
hatch, and (when `verify_proofs` is set) delegation to the inclusion-proof
helper. -/
def verify_transparency_entry (verify_proofs : Bool) (entry : TLEntry)
    (leaf_data : Bytes) (context : String) : Bool × List String :=
  match entry.log_id with
  | none => (false, [context ++ ": Missing log_id in transparency entry"])
  | some logId =>
    if logId = "" then (false, [context ++ ": Missing log_id in transparency entry"])
    else if MAX_LOG_ID_LENGTH < logId.length then
      (false, [context ++ ": log_id too long: " ++ toString logId.length])
    else
      match entry.entry_id with
      | none => (false, [context ++ ": Missing entry_id in transparency entry"])
      | some eid =>
        if (match eid with
            | Sum.inl s => MAX_ENTRY_ID_LENGTH < s.length
            | Sum.inr _ => false : Bool) then
          (false, [context ++ ": entry_id too long"])
        else
          match entry.tree_size with
          | none => (false, [context ++ ": Invalid tree_size"])
          | some ts =>
            if ts ≤ 0 then (false, [context ++ ": Invalid tree_size: " ++ toString ts])
            else
              match entry.inclusion_proof with
              | none => (false, [context ++ ": Missing inclusion_proof"])
              | some p =>
                if p = "" then (false, [context ++ ": Missing inclusion_proof"])
                else if "...".data.isSuffixOf p.data then (true, [])
                else if verify_proofs then
                  let errs := verify_inclusion_proof_entry entry leaf_data context
                  if errs ≠ [] then (false, errs) else (true, [])
                else (true, [])


/-! ## Embedding of `genesisgraph/validator.py`: canonical JSON

Python values passed to `GenesisGraphValidator._canonical_json` are modelled
by the mutual inductive `PyVal` / `PyList` / `PyFields` (mutual rather than
nested so that all recursion below is structural and kernel-reducible).
A Python `dict` is represented by its canonical key-sorted association list
(`PyFields`); on such representatives `json.dumps(..., sort_keys=True)`
emits the fields in list order.  Floats are modelled only as far as the
claims need them: by the `vNaN` value, which CPython's `json.dumps` (with
its default `allow_nan=True`) serialises as the bare token `NaN` without
raising.  Cyclic structures are not representable in an inductive type; on
everything representable, `json.dumps` returns normally, so the encoder is
total here. -/

mutual
inductive PyVal where
  | vNull
  | vBool (b : Bool)
  | vInt (n : Int)
  | vNaN
  | vStr (s : String)
  | vList (xs : PyList)
  | vDict (fs : PyFields)
inductive PyList where
  | nil
  | cons (hd : PyVal) (tl : PyList)
inductive PyFields where
  | nil
  | cons (k : String) (v : PyVal) (tl : PyFields)
end

/-- Decimal digits of a natural number (fuel-indexed). -/
def natDigitsF : Nat → Nat → List Char
  | 0, _ => []
  | fuel + 1, n => if n = 0 then [] else natDigitsF fuel (n / 10) ++ [Char.ofNat (48 + n % 10)]

/-- Python `repr` of a natural number. -/
def natDecimal (n : Nat) : List Char := if n = 0 then ['0'] else natDigitsF n n

/-- Python `repr` of an integer (as emitted by `json.dumps` for `int`). -/
def intRepr (i : Int) : List Char :=
  if i < 0 then '-' :: natDecimal i.natAbs else natDecimal i.natAbs

/-- JSON string escaping as performed by `json.dumps` with
`ensure_ascii=False`: only `"`, `\\` and control characters below `0x20`
are escaped (the five short forms, else `\u00XX`); everything else is
emitted as-is. -/
def escChar (c : Char) : List Char :=
  if c = '"' then ['\\', '"']
  else if c = '\\' then ['\\', '\\']
  else if c = Char.ofNat 10 then ['\\', 'n']
  else if c = Char.ofNat 13 then ['\\', 'r']
  else if c = Char.ofNat 9 then ['\\', 't']
  else if c = Char.ofNat 8 then ['\\', 'b']
  else if c = Char.ofNat 12 then ['\\', 'f']
  else if c.toNat < 32 then
    ['\\', 'u', '0', '0', Char.ofNat (if c.toNat / 16 < 10 then 48 + c.toNat / 16 else 87 + c.toNat / 16),
     Char.ofNat (if c.toNat % 16 < 10 then 48 + c.toNat % 16 else 87 + c.toNat % 16)]
  else [c]

/-- A JSON string literal: quote, escaped characters, quote. -/
def pyStrLit (s : String) : List Char :=
  '"' :: (s.data.map escChar).flatten ++ ['"']

mutual
/-- Character stream of `json.dumps(v, sort_keys=True, separators=(",", ":"),
ensure_ascii=False)` on the canonical (key-sorted) representative. -/
def canonChars : PyVal → List Char
  | .vNull => "null".data
  | .vBool true => "true".data
  | .vBool false => "false".data
  | .vNaN => "NaN".data
  | .vInt n => intRepr n
  | .vStr s => pyStrLit s
  | .vList xs => Char.ofNat 91 :: canonListChars xs ++ [Char.ofNat 93]
  | .vDict fs => Char.ofNat 123 :: canonFieldsChars fs ++ [Char.ofNat 125]
/-- Comma-joined serialisation of a JSON array body. -/
def canonListChars : PyList → List Char
  | .nil => []
  | .cons x .nil => canonChars x
  | .cons x (.cons y tl) => canonChars x ++ ',' :: canonListChars (.cons y tl)
/-- Comma-joined serialisation of a JSON object body (`"key":value`). -/
def canonFieldsChars : PyFields → List Char
  | .nil => []
  | .cons k v .nil => pyStrLit k ++ ':' :: canonChars v
  | .cons k v (.cons k2 v2 tl) =>
    pyStrLit k ++ ':' :: canonChars v ++ ',' :: canonFieldsChars (.cons k2 v2 tl)
end

/-- Embedding of `GenesisGraphValidator._canonical_json` (the returned
Python `str`). -/
def canonical_json (v : PyVal) : String := ⟨canonChars v⟩

/-- UTF-8 encoding of one unicode scalar value, written with `/`, `%` and `+`
(the lead/continuation tag bits never overlap the payload, so this equals the
usual masked form). -/
def utf8Char (c : Char) : Bytes :=
  if c.toNat < 0x80 then [c.toNat]
  else if c.toNat < 0x800 then [0xC0 + c.toNat / 64, 0x80 + c.toNat % 64]
  else if c.toNat < 0x10000 then
    [0xE0 + c.toNat / 4096, 0x80 + c.toNat / 64 % 64, 0x80 + c.toNat % 64]
  else [0xF0 + c.toNat / 262144, 0x80 + c.toNat / 4096 % 64, 0x80 + c.toNat / 64 % 64,
    0x80 + c.toNat % 64]

/-- Python's `str.encode("utf-8")`. -/
def utf8Encode (s : String) : Bytes := (s.data.map utf8Char).flatten

/-! ## Embedding of `GenesisGraphValidator._verify_signature` -/

/-- Outcome of the `cryptography` library's Ed25519 load-and-verify step:
clean success, `InvalidSignature`, or any other exception text (e.g. a
public key that is not 32 bytes). -/
inductive Ed25519Outcome where
  | valid
  | invalidSignature
  | loadError (msg : String)
deriving DecidableEq, Repr

/-- The validator state `_verify_signature` depends on: the module-level
availability flags, the optional `self.did_resolver` (a resolution function,
abstracting the resolver instance and its cache state), and the Ed25519
primitive of the `cryptography` library. -/
structure SigEnv where
  cryptographyAvailable : Bool
  didResolverImportable : Bool
  resolver : Option (String → Except ResErr Bytes)
  ed25519Check : Bytes → Bytes → Bytes → Ed25519Outcome

/-- The attestation fields read by `_verify_signature`
(`attestation.get("signature", "")` and `attestation.get("signer", "")`:
a missing field and an empty one are both the empty string). -/
structure Attestation where
  signature : String := ""
  signer : String := ""

/-- Python `s.split(sep, 1)` when it yields two parts (`none` when `sep`
does not occur, in which case the unpacking in the source raises
`ValueError`). -/
def splitOnce (sep : Char) (s : String) : Option (String × String) :=
  let pre := s.data.takeWhile (fun c => c ≠ sep)
  if pre.length = s.data.length then none
  else some (⟨pre⟩, ⟨s.data.drop (pre.length + 1)⟩)

/-- Removal of the `attestation` key:
`signed_data = dict(operation_data); signed_data.pop("attestation", None)`. -/
def popAttestation : PyFields → PyFields
  | .nil => .nil
  | .cons k v tl => if k = "attestation" then popAttestation tl else .cons k v (popAttestation tl)

/-- Embedding of `GenesisGraphValidator._verify_signature`, line by line:
availability guard; the silent empty-signature/signer success; signature
format split; the `mock:`/`sig` bypass; resolver presence; DID resolution;
base64 decode of the signature; canonical JSON of the operation minus its
attestation; the Ed25519 verify call.  Only the error list is returned. -/
def verify_signature (env : SigEnv) (att : Attestation) (operation_data : PyFields)
    (context : String) : List String :=
  if ¬ env.cryptographyAvailable then
    [context ++ ": cryptography library not available for signature verification"]
  else if att.signature = "" ∨ att.signer = "" then []
  else
    match splitOnce ':' att.signature with
    | none => [context ++ ": malformed signature: " ++ att.signature]
    | some (algo, sigData) =>
      if algo = "ed25519" then
        if "mock:".data.isPrefixOf sigData.data ∨ "sig".data.isPrefixOf sigData.data then []
        else
          match env.resolver with
          | none =>
            if ¬ env.didResolverImportable then
              [context ++ ": DID resolver not available (signature verification disabled)"]
            else
              [context ++ ": DID resolver not initialized (verify_signatures=False?)"]
          | some resolve =>
            match resolve att.signer with
            | .error _ =>
              [context ++ ": failed to resolve signer DID '" ++ att.signer ++ "'"]
            | .ok publicKeyBytes =>
              match b64decode sigData.data with
              | .error e => [context ++ ": failed to decode signature: " ++ e]
              | .ok signatureBytes =>
                let message := utf8Encode (canonical_json (.vDict (popAttestation operation_data)))
                match env.ed25519Check publicKeyBytes signatureBytes message with
                | .valid => []
                | .invalidSignature =>
                  [context ++ ": signature verification failed - invalid signature"]
                | .loadError e => [context ++ ": signature verification error: " ++ e]
      else if algo = "ecdsa" ∨ algo = "rsa" then
        [context ++ ": " ++ algo ++ " signature verification not yet implemented"]
      else
        [context ++ ": unsupported signature algorithm: " ++ algo]


/-! ## SHA-512 (FIPS 180-4), used by Ed25519 -/

/-- Round constants of SHA-512. -/
def sha512K : List Nat := [
  4794697086780616226, 8158064640168781261, 13096744586834688815,
  16840607885511220156, 4131703408338449720, 6480981068601479193,
  10538285296894168987, 12329834152419229976, 15566598209576043074,
  1334009975649890238, 2608012711638119052, 6128411473006802146,
  8268148722764581231, 9286055187155687089, 11230858885718282805,
  13951009754708518548, 16472876342353939154, 17275323862435702243,
  1135362057144423861, 2597628984639134821, 3308224258029322869,
  5365058923640841347, 6679025012923562964, 8573033837759648693,
  10970295158949994411, 12119686244451234320, 12683024718118986047,
  13788192230050041572, 14330467153632333762, 15395433587784984357,
  489312712824947311, 1452737877330783856, 2861767655752347644,
  3322285676063803686, 5560940570517711597, 5996557281743188959,
  7280758554555802590, 8532644243296465576, 9350256976987008742,
  10552545826968843579, 11727347734174303076, 12113106623233404929,
  14000437183269869457, 14369950271660146224, 15101387698204529176,
  15463397548674623760, 17586052441742319658, 1182934255886127544,
  1847814050463011016, 2177327727835720531, 2830643537854262169,
  3796741975233480872, 4115178125766777443, 5681478168544905931,
  6601373596472566643, 7507060721942968483, 8399075790359081724,
  8693463985226723168, 9568029438360202098, 10144078919501101548,
  10430055236837252648, 11840083180663258601, 13761210420658862357,
  14299343276471374635, 14566680578165727644, 15097957966210449927,
  16922976911328602910, 17689382322260857208, 500013540394364858,
  748580250866718886, 1242879168328830382, 1977374033974150939,
  2944078676154940804, 3659926193048069267, 4368137639120453308,
  4836135668995329356, 5532061633213252278, 6448918945643986474,
  6902733635092675308, 7801388544844847127]

/-- Initial hash state of SHA-512. -/
def sha512H0 : List Nat := [
  7640891576956012808, 13503953896175478587, 4354685564936845355,
  11912009170470909681, 5840696475078001361, 11170449401992604703,
  2270897969802886507, 6620516959819538809]

/-- SHA-512 message padding (128-byte blocks, 128-bit length field, of which
the upper 8 bytes are zero for any message in range here). -/
def sha512Pad (msg : Bytes) : Bytes :=
  let L := msg.length
  let z := (239 - (L % 128)) % 128
  msg ++ [0x80] ++ List.replicate z 0 ++ List.replicate 8 0 ++ be64 (8 * L)

/-- Message schedule of SHA-512: 16 block words extended to 80, with a
sliding 16-word window. -/
def sha512Schedule (block : Bytes) : List Nat :=
  let w0 := (List.range 16).map (word64At block)
  let ext := (List.range 64).foldl (fun (st : List Nat × List Nat) _ =>
    let win := st.1
    let x15 := win.getD 1 0
    let x2 := win.getD 14 0
    let s0 := (rotr64 x15 1) ^^^ (rotr64 x15 8) ^^^ (x15 >>> 7)
    let s1 := (rotr64 x2 19) ^^^ (rotr64 x2 61) ^^^ (x2 >>> 6)
    let nw := mask64 (win.getD 0 0 + s0 + win.getD 9 0 + s1)
    (win.tail ++ [nw], nw :: st.2)) (w0, [])
  w0 ++ ext.2.reverse

/-- One SHA-512 compression step. -/
def sha512Round (st : List Nat) (kw : Nat × Nat) : List Nat :=
  match st with
  | [a, b, c, e1, e, f, g, h] =>
    let S1 := (rotr64 e 14) ^^^ (rotr64 e 18) ^^^ (rotr64 e 41)
    let ch := (e &&& f) ^^^ ((0xffffffffffffffff ^^^ e) &&& g)
    let t1 := mask64 (h + S1 + ch + kw.1 + kw.2)
    let S0 := (rotr64 a 28) ^^^ (rotr64 a 34) ^^^ (rotr64 a 39)
    let mj := (a &&& b) ^^^ (a &&& c) ^^^ (b &&& c)
    let t2 := mask64 (S0 + mj)
    [mask64 (t1 + t2), a, b, c, mask64 (e1 + t1), e, f, g]
  | other => other

/-- Compress one 128-byte block into the running state. -/
def sha512Compress (h : List Nat) (block : Bytes) : List Nat :=
  let w := sha512Schedule block
  let fin := (sha512K.zip w).foldl sha512Round h
  (h.zip fin).map (fun x => mask64 (x.1 + x.2))

/-- SHA-512 digest (64 bytes) of a byte string. -/
def sha512 (msg : Bytes) : Bytes :=
  let padded := sha512Pad msg
  let n := padded.length / 128
  let hh := (List.range n).foldl
    (fun h i => sha512Compress h ((padded.drop (128 * i)).take 128)) sha512H0
  (hh.map be64).flatten

/-! ## Ed25519 (RFC 8032)

A concrete, executable model of the `cryptography` library's Ed25519
primitive: signing is needed to state what "the attestation built by signing
the canonical bytes of `D` under keypair `K`" is, verification to model
`Ed25519PublicKey.verify`.  Field elements are naturals reduced mod
`p = 2^255 - 19`; points are extended homogeneous coordinates `(X, Y, Z, T)`
on `edwards25519`; all loops are fuel-indexed so the kernel can run them. -/

/-- The field prime `2^255 - 19`. -/
def edP : Nat := 2 ^ 255 - 19

/-- The group order `L` of the Ed25519 base point. -/
def edL : Nat := 2 ^ 252 + 27742317777372353535851937790883648493

/-- The curve constant `d = -121665/121666 mod p`. -/
def edD : Nat := 37095705934669439343138083508754565189542113879843219016388785533085940283555

/-- Base point `y` coordinate (`4/5 mod p`). -/
def edBy : Nat := 46316835694926478169428394003475163141307993866256225615783033603165251855960

/-- Base point `x` coordinate. -/
def edBx : Nat := 15112221349535400772501151409588531511454012693041857206046113283949847762202

/-- A curve point in extended homogeneous coordinates. -/
structure EdPoint where
  X : Nat
  Y : Nat
  Z : Nat
  T : Nat
deriving DecidableEq, Repr

/-- The neutral element. -/
def edIdent : EdPoint := ⟨0, 1, 1, 0⟩

/-- The base point `B`. -/
def edB : EdPoint := ⟨edBx, edBy, 1, edBx * edBy % edP⟩

/-- Subtraction mod `p`. -/
def subP (a b : Nat) : Nat := (a + edP - b % edP) % edP

/-- The unified (complete) addition law of RFC 8032 §5.1.4 for `a = -1`
twisted Edwards curves; also used for doubling. -/
def edAdd (P Q : EdPoint) : EdPoint :=
  let A := (subP P.Y P.X) * (subP Q.Y Q.X) % edP
  let B := ((P.Y + P.X) % edP) * ((Q.Y + Q.X) % edP) % edP
  let C := P.T * (2 * edD % edP) % edP * Q.T % edP
  let D := P.Z * 2 % edP * Q.Z % edP
  let E := subP B A
  let F := subP D C
  let G := (D + C) % edP
  let H := (B + A) % edP
  ⟨E * F % edP, G * H % edP, F * G % edP, E * H % edP⟩

/-- Double-and-add scalar multiplication (fuel-indexed binary loop). -/
def edMulF : Nat → Nat → EdPoint → EdPoint → EdPoint
  | 0, _, _, acc => acc
  | fuel + 1, k, base, acc =>
    if k = 0 then acc
    else edMulF fuel (k / 2) (edAdd base base)
      (if k % 2 = 1 then edAdd acc base else acc)

/-- Scalar multiplication `k · P` (fuel 600 covers every scalar produced
below, all of which are < 2^512). -/
def edMul (k : Nat) (P : EdPoint) : EdPoint := edMulF 600 k P edIdent

/-- Modular exponentiation (fuel-indexed square-and-multiply). -/
def powModF : Nat → Nat → Nat → Nat → Nat → Nat
  | 0, _, _, _, acc => acc
  | fuel + 1, b, e, m, acc =>
    if e = 0 then acc
    else powModF fuel (b * b % m) (e / 2) m (if e % 2 = 1 then acc * b % m else acc)

/-- Modular exponentiation `b ^ e mod m`. -/
def powMod (b e m : Nat) : Nat := powModF 600 (b % m) e m (1 % m)

/-- Inverse mod `p` (Fermat). -/
def invP (a : Nat) : Nat := powMod a (edP - 2) edP

/-- Little-endian 32-byte encoding. -/
def le32 (n : Nat) : Bytes := (List.range 32).map (fun i => (n >>> (8 * i)) &&& 255)

/-- Little-endian byte-list decoding. -/
def leInt (bs : Bytes) : Nat := bs.foldr (fun b acc => acc * 256 + b) 0

/-- Point compression: `y` little-endian with the sign of `x` in the top bit. -/
def edCompress (P : EdPoint) : Bytes :=
  let zi := invP P.Z
  let x := P.X * zi % edP
  let y := P.Y * zi % edP
  le32 (y ||| ((x &&& 1) <<< 255))

/-- Square-root recovery of the `x`-coordinate (RFC 8032 §5.1.3). -/
def edXrecover (y : Nat) : Nat :=
  let xx := subP (y * y % edP) 1 * invP (edD * y % edP * y % edP + 1) % edP
  let x := powMod xx ((edP + 3) / 8) edP
  if (subP (x * x % edP) xx) % edP = 0 then x
  else x * powMod 2 ((edP - 1) / 4) edP % edP

/-- Point decompression; `none` on an invalid encoding. -/
def edDecompress (bs : Bytes) : Option EdPoint :=
  let n := leInt bs
  let sign := n >>> 255
  let y := n &&& (2 ^ 255 - 1)
  if edP ≤ y then none
  else
    let x0 := edXrecover y
    if subP (x0 * x0 % edP) (subP (y * y % edP) 1 * invP (edD * y % edP * y % edP + 1) % edP) ≠ 0
    then none
    else if x0 = 0 ∧ sign = 1 then none
    else
      let x := if x0 % 2 ≠ sign then edP - x0 else x0
      some ⟨x % edP, y, 1, x * y % edP⟩

/-- Point negation. -/
def edNeg (P : EdPoint) : EdPoint := ⟨(edP - P.X) % edP, P.Y, P.Z, (edP - P.T) % edP⟩

/-- The RFC 8032 secret-scalar clamp of the first half of `SHA-512(seed)`. -/
def edClamp (bs : Bytes) : Nat :=
  ((leInt (bs.take 32)) &&& (2 ^ 254 - 8)) ||| 2 ^ 254

/-- Ed25519 public key of a 32-byte seed. -/
def ed25519PublicKey (seed : Bytes) : Bytes :=
  edCompress (edMul (edClamp (sha512 seed)) edB)

/-- Ed25519 signature (RFC 8032) of `msg` under the secret `seed`. -/
def ed25519Sign (seed msg : Bytes) : Bytes :=
  let h := sha512 seed
  let a := edClamp h
  let prf := h.drop 32
  let A := edCompress (edMul a edB)
  let r := leInt (sha512 (prf ++ msg)) % edL
  let Rb := edCompress (edMul r edB)
  let k := leInt (sha512 (Rb ++ A ++ msg)) % edL
  let S := (r + k * a) % edL
  Rb ++ le32 S

/-- Ed25519 verification: decode the public key, range-check `S`, and check
the group equation `S·B = R + k·A` by recomputing the compressed `R`. -/
def ed25519Verify (pk sig msg : Bytes) : Bool :=
  if sig.length ≠ 64 ∨ pk.length ≠ 32 then false
  else
    match edDecompress pk with
    | none => false
    | some A =>
      let Rb := sig.take 32
      let S := leInt (sig.drop 32)
      if edL ≤ S then false
      else
        let k := leInt (sha512 (Rb ++ pk ++ msg)) % edL
        edCompress (edAdd (edMul S edB) (edMul k (edNeg A))) = Rb

/-- The `cryptography` library's load-and-verify sequence as called by
`_verify_signature`: `Ed25519PublicKey.from_public_bytes` raises unless the
key is exactly 32 bytes (any other exception text), and `verify` raises
`InvalidSignature` on any failed verification. -/
def ed25519LibCheck (pk sig msg : Bytes) : Ed25519Outcome :=
  if pk.length ≠ 32 then .loadError "An Ed25519 public key is 32 bytes long"
  else if ed25519Verify pk sig msg then .valid
  else .invalidSignature


/-! ## Base64 / base58 / `did:key` encoding (specification-side constructions
used to build honest attestations) -/

/-- Standard base64 encoding with padding. -/
def b64encodeGroups : Nat → Bytes → List Char
  | 0, _ => []
  | _, [] => []
  | fuel + 1, bs =>
    let g := bs.take 3
    let a := g.getD 0 0
    let b := g.getD 1 0
    let c := g.getD 2 0
    let quad :=
      match g.length with
      | 1 => [B64_ALPHABET.getD (a >>> 2) ' ', B64_ALPHABET.getD ((a &&& 3) <<< 4) ' ', '=', '=']
      | 2 => [B64_ALPHABET.getD (a >>> 2) ' ', B64_ALPHABET.getD ((a &&& 3) <<< 4 ||| b >>> 4) ' ',
              B64_ALPHABET.getD ((b &&& 15) <<< 2) ' ', '=']
      | _ => [B64_ALPHABET.getD (a >>> 2) ' ', B64_ALPHABET.getD ((a &&& 3) <<< 4 ||| b >>> 4) ' ',
              B64_ALPHABET.getD ((b &&& 15) <<< 2 ||| c >>> 6) ' ', B64_ALPHABET.getD (c &&& 63) ' ']
    quad ++ b64encodeGroups fuel (bs.drop 3)

/-- Python's `base64.b64encode` (as a Lean `String`). -/
def b64encode (bs : Bytes) : String := ⟨b64encodeGroups bs.length bs⟩

/-- Base58btc digit accumulation (fuel-indexed `while num > 0` loop). -/
def b58DigitsF : Nat → Nat → List Char
  | 0, _ => []
  | fuel + 1, n =>
    if n = 0 then []
    else b58DigitsF fuel (n / 58) ++ [B58_ALPHABET.getD (n % 58) ' ']

/-- Base58btc encoding (leading zero bytes become leading `1`s). -/
def b58encode (bs : Bytes) : String :=
  let lz := (bs.takeWhile (fun b => b = 0)).length
  let n := bs.foldl (fun acc b => acc * 256 + b) 0
  ⟨List.replicate lz '1' ++ b58DigitsF n n⟩

/-- The `did:key` identifier of an Ed25519 public key: `z` + base58btc of the
multicodec bytes `0xED 0x01` followed by the raw key. -/
def didKeyOf (pk : Bytes) : String :=
  "did:key:z" ++ b58encode (0xED :: 0x01 :: pk)

/-- The honest attestation of the claim: sign the canonical bytes of the
signed payload (the operation with its attestation field removed) under the
seed, attach the signature as `ed25519:<base64>`, and name the signer by the
keypair's `did:key`. -/
def honestAttestation (seed : Bytes) (signedPayload : PyFields) : Attestation :=
  { signature := "ed25519:" ++
      b64encode (ed25519Sign seed (utf8Encode (canonical_json (.vDict signedPayload)))),
    signer := didKeyOf (ed25519PublicKey seed) }

/-- The signature-verification environment of a production validator: the
`cryptography` library present, a DID resolver installed (any resolution
function — covering every cache state), and the real Ed25519 primitive. -/
def prodEnv (resolve : String → Except ResErr Bytes) : SigEnv :=
  { cryptographyAvailable := true
    didResolverImportable := true
    resolver := some resolve
    ed25519Check := ed25519LibCheck }


/-! ## Auxiliary definitions for the injectivity analysis of the canonical
JSON encoding (used by the C3 theorems) -/

/-- Decimal value of a digit string (MSB first). -/
def decVal (l : List Char) : Nat := l.foldl (fun a c => a * 10 + (c.toNat - 48)) 0

/-- Head-character classifier used to separate the serialisations of the
different `PyVal` constructors. -/
def jsonHeadTag (l : List Char) : Nat :=
  match l with
  | [] => 0
  | c :: _ =>
    if c = 'n' then 1 else if c = 't' then 2 else if c = 'f' then 3
    else if c = 'N' then 4 else if c = '"' then 5 else if c = Char.ofNat 91 then 6
    else if c = Char.ofNat 123 then 7
    else if c.isDigit ∨ c = '-' then 8 else 0

/-- Constructor tag of a value, matching `jsonHeadTag` of its serialisation. -/
def tagOf : PyVal → Nat
  | .vNull => 1
  | .vBool true => 2
  | .vBool false => 3
  | .vNaN => 4
  | .vStr _ => 5
  | .vList _ => 6
  | .vDict _ => 7
  | .vInt _ => 8

/-- First characters of continuations that end a serialised number. -/
def headNotDigit : List Char → Prop
  | [] => True
  | c :: _ => c.isDigit = false

def unescCharOf (e : Char) : Char :=
  if e = 'n' then Char.ofNat 10
  else if e = 'r' then Char.ofNat 13
  else if e = 't' then Char.ofNat 9
  else if e = 'b' then Char.ofNat 8
  else if e = 'f' then Char.ofNat 12
  else e

def unescStream : List Char → Option (List Char × List Char)
  | [] => none
  | c :: rest =>
    if c = '"' then some ([], rest)
    else if c = '\\' then
      match rest with
      | [] => none
      | e :: rest2 =>
        if e = 'u' then
          match rest2 with
          | _ :: _ :: h3 :: h4 :: rest3 =>
            match unescStream rest3 with
            | some (l, r) => some (Char.ofNat (16 * hexVal h3 + hexVal h4) :: l, r)
            | none => none
          | _ => none
        else
          match unescStream rest2 with
          | some (l, r) => some (unescCharOf e :: l, r)
          | none => none
    else
      match unescStream rest with
      | some (l, r) => some (c :: l, r)
      | none => none

/-- Seed of the example keypair used in the C3 witness and counterexample. -/
def c3Seed : Bytes := List.range 32

/-- Witness operation payload (already key-sorted, without attestation). -/
def c3Payload : PyFields := .cons "id" (.vStr "op1") .nil

/-- The witness payload with its `id` field mutated. -/
def c3Mutated : PyFields := .cons "id" (.vStr "op2") .nil

/-- Counterexample payload: an honest operation whose Ed25519 signature
happens to have a base64 encoding starting with `sig` (found by searching
over the `nonce` field). -/
def cxPayload : PyFields :=
  .cons "id" (.vStr "op1")
    (.cons "inputs" (.vList (.cons (.vStr "a") .nil))
      (.cons "nonce" (.vStr "156827")
        (.cons "outputs" (.vList (.cons (.vStr "b") .nil)) .nil)))

/-- The counterexample payload tampered after signing: the `id` field is
mutated and the attestation is attached (it is popped before hashing). -/
def cxMutated : PyFields :=
  .cons "attestation" (.vStr "sig")
    (.cons "id" (.vStr "op2")
      (.cons "inputs" (.vList (.cons (.vStr "a") .nil))
        (.cons "nonce" (.vStr "156827")
          (.cons "outputs" (.vList (.cons (.vStr "b") .nil)) .nil))))

end GG

set_option maxRecDepth 1000000





-- ===== THEOREMS =====

namespace GG

/-! Sanity checks for the SHA-256 implementation (FIPS / hashlib test vectors). -/

example : sha256 [] =
    [227, 176, 196, 66, 152, 252, 28, 20, 154, 251, 244, 200, 153, 111, 185, 36,
     39, 174, 65, 228, 100, 155, 147, 76, 164, 149, 153, 27, 120, 82, 184, 85] := by
  decide

example : sha256 [0, 97, 98, 99] =
    [96, 159, 110, 54, 210, 64, 85, 133, 24, 141, 92, 253, 118, 31, 64, 124,
     124, 196, 106, 125, 63, 49, 76, 136, 39, 4, 105, 221, 227, 21, 252, 209] := by
  decide

/-- C1 (code bug): for the honestly built RFC 6962 tree over the three leaves
`[0]`, `[1]`, `[2]`, the honest audit path for leaf index 2 is the single node
`MTH(D[0:2])`, and recombining it on the correct side reproduces the honest
root; yet `verify_inclusion_proof` returns `false` on exactly this honest
input (its even/odd-index walk treats the index-2 leaf of a size-3 tree as a
left child, where RFC 6962 makes it the right child of the root).  The claim
that honest audit paths verify for every tree size 1-256 and every leaf index
is therefore false at tree size 3, leaf index 2. -/
theorem C1_honest_inclusion_path_rejected :
    auditPath 2 [[0], [1], [2]] = [hash_children (hash_leaf [0]) (hash_leaf [1])] ∧
    MTH [[0], [1], [2]] =
      hash_children (hash_children (hash_leaf [0]) (hash_leaf [1])) (hash_leaf [2]) ∧
    verify_inclusion_proof (hash_leaf [2]) 3 2
      (auditPath 2 [[0], [1], [2]]) (MTH [[0], [1], [2]]) = .ok false := by
  exact ⟨by decide, by decide, by decide⟩

/-- C2 (code bug): for the honestly built RFC 6962 trees over leaves `[0]`
(size 1) and `[0], [1]` (size 2), the honest RFC 6962 consistency proof
`PROOF(1, D[2])` is the single node `MTH(D[1:2])`, and hashing the old root
with it reproduces the new root; yet `verify_consistency_proof` returns
`false` on exactly this honest input (its power-of-two branch requires
`proof[0]` to equal the *old root*, a layout RFC 6962 does not produce).
The claim that honest consistency proofs verify for all `N, M ≤ 64` is
therefore false already at `N = 1, M = 1`. -/
theorem C2_honest_consistency_proof_rejected :
    consProof 1 [[0], [1]] = [hash_leaf [1]] ∧
    MTH [[0], [1]] = hash_children (MTH [[0]]) (hash_leaf [1]) ∧
    verify_consistency_proof 1 2 (MTH [[0]]) (MTH [[0], [1]])
      (consProof 1 [[0], [1]]) = .ok false := by
  exact ⟨by decide, by decide, by decide⟩

/-! ## Claim C4: `did:key` payload validation -/

/-- C4 counterexample: a `did:key` whose base58btc payload is the Ed25519
multicodec bytes `0xED 0x01` followed by **33** key bytes (35 bytes in all).
The claim says resolution must fail for any payload whose length after the
prefix differs from 32; instead `_resolve_did_key` slices `decoded[2:34]`
and succeeds, silently returning the first 32 of the 33 key bytes. -/
theorem C4_overlong_payload_accepted :
    base58_decode "QebeJyLcziHBQxE7NwXYwvqBdyYXvZbuctgvB7GWAED7Q8z3".data =
      .ok (237 :: 1 :: List.range 33) ∧
    (237 :: 1 :: List.range 33 : Bytes).length = 35 ∧
    resolve_did_key "did:key:zQebeJyLcziHBQxE7NwXYwvqBdyYXvZbuctgvB7GWAED7Q8z3" =
      .ok (List.range 32) := by
  exact ⟨by decide, by decide, by decide⟩

/-- C4 (amended): for every string `did:key:z<base58btc(payload)>` (stated for
every `did` whose parsed multibase part base58-decodes to `payload`):
resolution fails unless the first two payload bytes are `0xED 0x01`, the
mismatch failure carrying both received prefix bytes (the rendered message,
`unsupportedKeyTypeMsg`, names the expected `0xed01` as well); when the
prefix matches, resolution fails if fewer than 32 bytes follow the prefix,
and otherwise returns the **first 32** bytes after the prefix — so payloads
longer than 34 bytes are silently truncated, not rejected. -/
theorem C4_did_key_resolution (did : String) (payload : Bytes)
    (h1 : "did:key:".data.isPrefixOf did.data = true)
    (h2 : did.data.drop 8 ≠ [])
    (h3 : "z".data.isPrefixOf (did.data.drop 8) = true)
    (h4 : base58_decode ((did.data.drop 8).drop 1) = .ok payload) :
    (payload.length < 2 → resolve_did_key did = .error (.didKeyTooShort payload.length)) ∧
    (2 ≤ payload.length → (payload.getD 0 0 ≠ 0xED ∨ payload.getD 1 0 ≠ 0x01) →
      resolve_did_key did = .error (.unsupportedKeyType (payload.getD 0 0) (payload.getD 1 0))) ∧
    (payload.getD 0 0 = 0xED → payload.getD 1 0 = 0x01 → 2 ≤ payload.length →
      payload.length < 34 →
      resolve_did_key did = .error (.invalidKeyLength (payload.length - 2))) ∧
    (payload.getD 0 0 = 0xED → payload.getD 1 0 = 0x01 → 34 ≤ payload.length →
      resolve_did_key did = .ok ((payload.drop 2).take 32)) := by
  have hkey : resolve_did_key did =
      (if payload.length < 2 then .error (.didKeyTooShort payload.length)
       else if payload.getD 0 0 ≠ 0xED ∨ payload.getD 1 0 ≠ 0x01 then
         .error (.unsupportedKeyType (payload.getD 0 0) (payload.getD 1 0))
       else if ((payload.drop 2).take 32).length ≠ 32 then
         .error (.invalidKeyLength ((payload.drop 2).take 32).length)
       else .ok ((payload.drop 2).take 32)) := by
    simp only [resolve_did_key, h1, h2, h3, h4, not_true, ite_false, if_neg]
  have hlen : ((payload.drop 2).take 32).length = min 32 (payload.length - 2) := by
    simp [List.length_take, List.length_drop]
  refine ⟨?_, ?_, ?_, ?_⟩
  · intro h; rw [hkey, if_pos h]
  · intro hge hne
    rw [hkey, if_neg (by omega), if_pos hne]
  · intro e0 e1 hge hlt
    rw [hkey, if_neg (by omega), if_neg (by push_neg; exact ⟨e0, e1⟩),
        if_pos (by rw [hlen]; omega)]
    rw [hlen, min_eq_right (by omega)]
  · intro e0 e1 hge
    rw [hkey, if_neg (by omega), if_neg (by push_neg; exact ⟨e0, e1⟩),
        if_neg (by rw [hlen]; omega)]

/-- C4 witness: the amended theorem applied to a concrete well-formed
`did:key` carrying the 34-byte payload `0xED 0x01 ++ (0,…,31)`; the resolved
key is the 32 bytes after the multicodec prefix. -/
theorem C4_did_key_resolution_witness :
    resolve_did_key "did:key:z6MkeTGwHmLmuCmgg4ABYhzWVh6ZX7hTwWt8gguAretUfc9c" =
      .ok ((((237 : Nat) :: 1 :: List.range 32).drop 2).take 32) :=
  (C4_did_key_resolution "did:key:z6MkeTGwHmLmuCmgg4ABYhzWVh6ZX7hTwWt8gguAretUfc9c"
      (237 :: 1 :: List.range 32) (by decide) (by decide) (by decide) (by decide)).2.2.2
    (by decide) (by decide) (by decide)

/-! ## Claim C6: SSRF blocklist before any network request -/

/-- C6 (amended): for every `did:web` identifier whose parsed domain component
is `127.0.0.1`, `169.254.169.254`, or `10.0.0.5`, resolution stops with the
blocked-host security error before the rate-limit check and before the point
where the URL for the network fetch is even constructed, leaving the
rate-limit state untouched.  (`::1` is unreachable as a domain component:
the method-specific identifier is split on `:`, so no parsed domain ever
contains a colon — see the counterexample.) -/
theorem C6_blocked_domain_pre_network (did : String) (limits : RateLimits)
    (rateLimitMax : Nat) (now : ℚ) (domain : String)
    (hw : "did:web:".data.isPrefixOf did.data = true)
    (hd : (splitChar ':' (did.data.drop 8)).headD [] = domain.data)
    (hdom : domain ∈ (["127.0.0.1", "169.254.169.254", "10.0.0.5"] : List String)) :
    resolve_did_web_request did limits rateLimitMax now =
      (.error (.blockedHost domain), limits) := by
  have hb : is_blocked_host domain = true := by
    rcases (by simpa using hdom :
        domain = "127.0.0.1" ∨ domain = "169.254.169.254" ∨ domain = "10.0.0.5") with h | h | h <;>
      subst h <;> decide
  simp only [resolve_did_web_request, hw, hd, not_true, ite_false, if_neg, hb, if_pos]

/-- C6 witness: the amended theorem applied to `did:web:10.0.0.5` (an address
inside the blocked `10.0.0.0/8` range) with a fresh rate-limit table. -/
theorem C6_blocked_domain_pre_network_witness :
    resolve_did_web_request "did:web:10.0.0.5" [] 10 0 =
      (.error (.blockedHost "10.0.0.5"), []) :=
  C6_blocked_domain_pre_network "did:web:10.0.0.5" [] 10 0 "10.0.0.5"
    (by decide) (by decide) (by decide)

/-- C6 counterexample: the blocklist itself does contain `::1`, but the
identifier `did:web:::1` — the only way to write an IPv6-loopback domain —
parses to the domain `""` (splitting on `:`), passes the block check, and
proceeds to the rate-limit check and then to the fetch stage (with the
nonsense URL `https:////1/did.json`).  No security-policy error is raised,
contradicting the claim's `::1` case. -/
theorem C6_ipv6_loopback_not_blocked :
    is_blocked_host "::1" = true ∧
    (splitChar ':' ("did:web:::1".data.drop 8)).headD [] = "".data ∧
    resolve_did_web_request "did:web:::1" [] 2 0 =
      (.ok "https:////1/did.json", [("", [0])]) := by
  exact ⟨by decide, by decide, by decide⟩

/-! ## Claim C8: per-domain rate limiting -/

/-- Helper: looking up a key right after `setRate` wrote it returns exactly
the written window. -/
theorem lookup_setRate (m : RateLimits) (k : String) (v : List ℚ) :
    (setRate m k v).lookup k = some v := by
  unfold setRate
  split
  case isTrue h =>
    induction m with
    | nil => simp at h
    | cons p m ih =>
      obtain ⟨a, b⟩ := p
      by_cases hp : a = k
      · rw [List.map_cons]
        simp only [hp, if_pos rfl]
        exact List.lookup_cons_self
      · rw [List.map_cons, if_neg (by simpa using hp)]
        have h2 : (m.any fun p => decide (p.1 = k)) = true := by
          simpa [hp] using h
        simp only [List.lookup_cons, beq_false_of_ne (fun e => hp e.symm)]
        exact ih h2
  case isFalse h =>
    induction m with
    | nil => simpa using List.lookup_cons_self
    | cons p m ih =>
      obtain ⟨a, b⟩ := p
      simp only [List.any_cons, Bool.or_eq_true, decide_eq_true_eq, not_or] at h
      simp only [List.cons_append, List.lookup_cons,
        beq_false_of_ne (fun e => h.1 e.symm)]
      exact ih (by simpa using h.2)

/-- Helper: after any rate-limit check, the domain's stored window is the
pruned window, with `now` appended exactly when the check passed. -/
theorem rateWindow_after_check (limits : RateLimits) (rateLimitMax : Nat)
    (dom : String) (now : ℚ) :
    (check_rate_limit limits rateLimitMax dom now).2.lookup dom =
      some ((((limits.lookup dom).getD []).filter (fun t => now - 60 < t)) ++
        (if (check_rate_limit limits rateLimitMax dom now).1 = .ok () then [now] else [])) := by
  by_cases hc : rateLimitMax ≤
      (((limits.lookup dom).getD []).filter (fun t => now - 60 < t)).length
  · simp [check_rate_limit, hc, lookup_setRate]
  · simp [check_rate_limit, hc, lookup_setRate]

/-- C8: with `rate_limit = 2`, three checks for the same fresh domain at times
`t1 ≤ t2 ≤ t3` inside one trailing 60-second window (`t3 - t1 < 60`) pass,
pass, and then fail with the rate-limit error; the failing third call leaves
the window at `[t1, t2]` (its own timestamp is never recorded).  The final
conjunct states the general invariant: after any check, the stored window is
the pruned one, with the request's timestamp appended exactly when its limit
check passed. -/
theorem C8_rate_limit_third_call_fails (d : String) (t1 t2 t3 : ℚ)
    (h12 : t1 ≤ t2) (h23 : t2 ≤ t3) (hwin : t3 - t1 < 60) :
    ((check_rate_limit [] 2 d t1).1 = .ok () ∧
     (check_rate_limit (check_rate_limit [] 2 d t1).2 2 d t2).1 = .ok () ∧
     (check_rate_limit (check_rate_limit (check_rate_limit [] 2 d t1).2 2 d t2).2 2 d t3).1
        = .error (.rateLimitExceeded d) ∧
     (check_rate_limit (check_rate_limit (check_rate_limit [] 2 d t1).2 2 d t2).2 2 d t3).2.lookup d
        = some [t1, t2]) ∧
    (∀ (limits : RateLimits) (rateLimitMax : Nat) (dom : String) (now : ℚ),
      (check_rate_limit limits rateLimitMax dom now).2.lookup dom =
        some ((((limits.lookup dom).getD []).filter (fun t => now - 60 < t)) ++
          (if (check_rate_limit limits rateLimitMax dom now).1 = .ok () then [now] else []))) := by
  have k1 : t2 - 60 < t1 := by linarith
  have k2 : t3 - 60 < t1 := by linarith
  have k3 : t3 - 60 < t2 := by linarith
  refine ⟨?_, fun limits rateLimitMax dom now => rateWindow_after_check limits rateLimitMax dom now⟩
  simp [check_rate_limit, setRate, List.lookup, k1, k2, k3]

/-- C8 witness: the scenario half of the theorem at domain `example.com` and
times `0, 1, 2`. -/
theorem C8_rate_limit_third_call_fails_witness :
    (check_rate_limit [] 2 "example.com" 0).1 = .ok () ∧
    (check_rate_limit (check_rate_limit [] 2 "example.com" 0).2 2 "example.com" 1).1 = .ok () ∧
    (check_rate_limit (check_rate_limit (check_rate_limit [] 2 "example.com" 0).2 2
        "example.com" 1).2 2 "example.com" 2).1
      = .error (.rateLimitExceeded "example.com") ∧
    (check_rate_limit (check_rate_limit (check_rate_limit [] 2 "example.com" 0).2 2
        "example.com" 1).2 2 "example.com" 2).2.lookup "example.com"
      = some [0, 1] :=
  (C8_rate_limit_third_call_fails "example.com" 0 1 2
    (by norm_num) (by norm_num) (by norm_num)).1


/-! ## Claim C5: the `...` truncation escape hatch -/

/-- C5: for every transparency entry whose required fields pass the
structural checks and whose `inclusion_proof` string ends with the `...`
truncation marker, `verify_transparency_entry` returns success with an empty
error list — for every leaf-data input and for both settings of
`verify_proofs`, i.e. without any cryptographic verification (the function
returns before the inclusion-proof helper is reached). -/
theorem C5_truncated_proof_accepted (vp : Bool) (e : TLEntry) (leaf : Bytes) (ctx : String)
    (l p : String) (eid : String ⊕ Int) (ts : Int)
    (h1 : e.log_id = some l) (h2 : l ≠ "") (h3 : l.length ≤ MAX_LOG_ID_LENGTH)
    (h4 : e.entry_id = some eid)
    (h5 : ∀ s, eid = Sum.inl s → s.length ≤ MAX_ENTRY_ID_LENGTH)
    (h6 : e.tree_size = some ts) (h7 : 0 < ts)
    (h8 : e.inclusion_proof = some p) (h9 : p ≠ "")
    (h10 : "...".data.isSuffixOf p.data = true) :
    verify_transparency_entry vp e leaf ctx = (true, []) := by
  unfold verify_transparency_entry
  rw [h1, h4, h6, h8]
  rcases eid with s | i
  · have hs : s.length ≤ MAX_ENTRY_ID_LENGTH := h5 s rfl
    simp [h2, h9, h10, hs, Nat.not_lt.2 hs, if_neg (by omega : ¬ ts ≤ 0),
      if_neg (by omega : ¬ MAX_LOG_ID_LENGTH < l.length)]
  · simp [h2, h9, h10, if_neg (by omega : ¬ ts ≤ 0),
      if_neg (by omega : ¬ MAX_LOG_ID_LENGTH < l.length)]

/-- C5 witness: the exact example entry from the repository's tests
(`inclusion_proof = "base64:example..."`), accepted with no errors under
`verify_proofs = true`. -/
theorem C5_truncated_proof_accepted_witness :
    verify_transparency_entry true
      { log_id := some "did:log:test-log", entry_id := some (Sum.inl "0x0"),
        tree_size := some 1, inclusion_proof := some "base64:example..." }
      [1, 2, 3] "test" = (true, []) :=
  C5_truncated_proof_accepted true _ [1, 2, 3] "test" "did:log:test-log"
    "base64:example..." (Sum.inl "0x0") 1 rfl (by decide) (by decide) rfl
    (by intro s hs; cases hs; decide) rfl (by decide) rfl (by decide) (by decide)

/-! ## Claim C10: entries without `root_hash` skip Merkle verification -/

/-- C10: for every transparency entry that passes the structural checks, does
not end with the truncation marker, carries no (or an empty) `root_hash`,
and whose proof base64-decodes to a byte string of length a multiple of 32
within the 1 MB cap, `verify_transparency_entry` (with `verify_proofs`
enabled) returns success for **every** leaf-data input: the RFC 6962
inclusion verifier is reached only under a non-empty `root_hash`, so no
Merkle verification ever happens. -/
theorem C10_no_root_hash_skips_merkle (e : TLEntry) (leaf : Bytes) (ctx : String)
    (l p : String) (eid : String ⊕ Int) (ts : Int) (bs : Bytes)
    (h1 : e.log_id = some l) (h2 : l ≠ "") (h3 : l.length ≤ MAX_LOG_ID_LENGTH)
    (h4 : e.entry_id = some eid)
    (h5 : ∀ s, eid = Sum.inl s → s.length ≤ MAX_ENTRY_ID_LENGTH)
    (h6 : e.tree_size = some ts) (h7 : 0 < ts)
    (h8 : e.inclusion_proof = some p) (h9 : p ≠ "")
    (h10 : "...".data.isSuffixOf p.data = false)
    (hroot : e.rootHash = none ∨ e.rootHash = some "")
    (hdec : b64decode (stripB64Tag p).data = .ok bs)
    (hlen : bs.length % 32 = 0) (hcap : bs.length ≤ MAX_PROOF_LENGTH) :
    verify_transparency_entry true e leaf ctx = (true, []) := by
  have hin : verify_inclusion_proof_entry e leaf ctx = [] := by
    unfold verify_inclusion_proof_entry
    rw [h8]
    simp only [Option.getD_some, hdec]
    rcases hroot with hr | hr <;>
      simp [hr, if_neg (by omega : ¬ MAX_PROOF_LENGTH < bs.length), hlen]
  unfold verify_transparency_entry
  rw [h1, h4, h6, h8]
  rcases eid with sid | i
  · have hs : sid.length ≤ MAX_ENTRY_ID_LENGTH := h5 sid rfl
    simp [h2, h9, h10, hs, Nat.not_lt.2 hs, hin, if_neg (by omega : ¬ ts ≤ 0),
      if_neg (by omega : ¬ MAX_LOG_ID_LENGTH < l.length)]
  · simp [h2, h9, h10, hin, if_neg (by omega : ¬ ts ≤ 0),
      if_neg (by omega : ¬ MAX_LOG_ID_LENGTH < l.length)]

/-- C10 witness: a structurally valid entry with a real base64 proof of
exactly 32 bytes and no `root_hash`, accepted with `verify_proofs = true`
(the leaf data `[9]` plays no role). -/
theorem C10_no_root_hash_skips_merkle_witness :
    verify_transparency_entry true
      { log_id := some "did:log:w", entry_id := some (Sum.inr 0),
        tree_size := some 5,
        inclusion_proof := some "base64:AAAAAAAAAAAAAAAAAAAAAAAAAAAAAAAAAAAAAAAAAAA=" }
      [9] "ctx" = (true, []) :=
  C10_no_root_hash_skips_merkle _ [9] "ctx" "did:log:w"
    "base64:AAAAAAAAAAAAAAAAAAAAAAAAAAAAAAAAAAAAAAAAAAA=" (Sum.inr 0) 5
    (List.replicate 32 0) rfl (by decide) (by decide) rfl
    (by intro s hs; cases hs) rfl (by decide) rfl (by decide) (by decide)
    (Or.inl rfl) (by decide) (by decide) (by decide)

/-! ## Claim C7: canonical encoding of non-representable values -/

/-- C7 (code bug): the canonical encoder does **not** fail on `NaN`.
`json.dumps` is called without `allow_nan=False`, so a float `NaN` inside
the value is serialised as the bare (non-JSON) token `NaN` and the encoder
returns a string instead of raising — here evaluated on `{"a": float("nan")}`
(a cyclic reference, the claim's other example, does raise `ValueError` in
CPython, which is why the encoder is total on the inductively representable
values modelled by `PyVal`). -/
theorem C7_nan_is_encoded_not_rejected :
    canonical_json (.vDict (.cons "a" .vNaN .nil)) = "\x7b\"a\":NaN\x7d" ∧
    canonical_json .vNaN = "NaN" := by
  exact ⟨by decide, by decide⟩

/-! ## Claim C9: empty signature or signer silently passes -/

/-- C9: with the `cryptography` library available, an attestation whose
signature or signer field is missing or empty makes `_verify_signature`
return an empty error list — reporting success without resolution,
canonicalisation, or any cryptographic step, for every operation payload,
every resolver state, and every Ed25519 primitive. -/
theorem C9_missing_signature_or_signer_passes (env : SigEnv) (att : Attestation)
    (op : PyFields) (ctx : String)
    (hc : env.cryptographyAvailable = true)
    (h : att.signature = "" ∨ att.signer = "") :
    verify_signature env att op ctx = [] := by
  unfold verify_signature
  rcases h with h | h <;> simp [hc, h]

/-- C9 witness: an attestation with a signer but an empty signature, under a
fully populated environment (resolver present, Ed25519 primitive that would
reject everything), still verifies with no errors. -/
theorem C9_missing_signature_or_signer_passes_witness :
    verify_signature
      ⟨true, true, some (fun _ => .error (.invalidDidFormat "x")),
        fun _ _ _ => .invalidSignature⟩
      ⟨"", "did:key:zX"⟩ (.cons "id" (.vStr "op1") .nil) "op op1" = [] :=
  C9_missing_signature_or_signer_passes _ _ _ _ rfl (Or.inl rfl)


/-! ## Injectivity of the canonical JSON encoding, base64 round trip,
and the C3 signature-tampering theorems -/

theorem toNat_ofNat_small : ∀ n, n < 128 → (Char.ofNat n).toNat = n := by decide

theorem charToNat_inj {c1 c2 : Char} (h : c1.toNat = c2.toNat) : c1 = c2 := by
  have h2 := congrArg Char.ofNat h
  simpa using h2

theorem natDigitsF_stable : ∀ (n f g : Nat), n ≤ f → n ≤ g → natDigitsF f n = natDigitsF g n := by
  intro n
  induction n using Nat.strong_induction_on with
  | _ n ih =>
    intro f g hf hg
    match f, g with
    | 0, g =>
      have : n = 0 := by omega
      subst this
      cases g <;> simp [natDigitsF]
    | f + 1, 0 =>
      have : n = 0 := by omega
      subst this
      simp [natDigitsF]
    | f + 1, g + 1 =>
      by_cases h0 : n = 0
      · simp [natDigitsF, h0]
      · simp only [natDigitsF, if_neg h0]
        rw [ih (n / 10) (by omega) f g (by omega) (by omega)]

theorem isDigit_digitChar : ∀ m, m < 10 → (Char.ofNat (48 + m)).isDigit = true := by decide

theorem natDigitsF_digits : ∀ (f n : Nat) (c : Char), c ∈ natDigitsF f n → c.isDigit = true := by
  intro f
  induction f with
  | zero => intro n c hc; simp [natDigitsF] at hc
  | succ f ih =>
    intro n c hc
    by_cases h0 : n = 0
    · simp [natDigitsF, h0] at hc
    · simp only [natDigitsF, if_neg h0, List.mem_append, List.mem_singleton] at hc
      rcases hc with hc | hc
      · exact ih _ _ hc
      · subst hc; exact isDigit_digitChar _ (by omega)

theorem decVal_natDigitsF : ∀ (n f : Nat), n ≤ f → ∀ acc,
    List.foldl (fun a c => a * 10 + (c.toNat - 48)) acc (natDigitsF f n)
      = acc * 10 ^ (natDigitsF f n).length + n := by
  intro n
  induction n using Nat.strong_induction_on with
  | _ n ih =>
    intro f hf acc
    match f with
    | 0 =>
      have : n = 0 := by omega
      subst this; simp [natDigitsF]
    | f + 1 =>
      by_cases h0 : n = 0
      · simp [natDigitsF, h0]
      · simp only [natDigitsF, if_neg h0, List.foldl_append, List.length_append,
          List.foldl_cons, List.foldl_nil, List.length_cons, List.length_nil]
        rw [ih (n / 10) (by omega) f (by omega) acc]
        have htn : (Char.ofNat (48 + n % 10)).toNat = 48 + n % 10 := by
          have h1 : 48 + n % 10 < 128 := by omega
          exact toNat_ofNat_small _ h1
        rw [htn]
        have hsub : 48 + n % 10 - 48 = n % 10 := by omega
        rw [hsub, show (natDigitsF f (n / 10)).length + (0 + 1)
          = (natDigitsF f (n / 10)).length + 1 from by omega, pow_succ]
        have hdm : n / 10 * 10 + n % 10 = n := by omega
        calc (acc * 10 ^ (natDigitsF f (n / 10)).length + n / 10) * 10 + n % 10
            = acc * (10 ^ (natDigitsF f (n / 10)).length * 10) + (n / 10 * 10 + n % 10) := by
              ring
          _ = acc * (10 ^ (natDigitsF f (n / 10)).length * 10) + n := by rw [hdm]

theorem decVal_natDecimal (n : Nat) : decVal (natDecimal n) = n := by
  unfold natDecimal decVal
  by_cases h0 : n = 0
  · subst h0; decide
  · rw [if_neg h0]
    simpa using decVal_natDigitsF n n (le_refl n) 0

theorem natDecimal_digits (n : Nat) : ∀ c ∈ natDecimal n, c.isDigit = true := by
  unfold natDecimal
  by_cases h0 : n = 0
  · subst h0
    intro c hc
    simp at hc
    subst hc; decide
  · rw [if_neg h0]
    intro c hc
    exact natDigitsF_digits _ _ _ hc

theorem natDecimal_ne_nil (n : Nat) : natDecimal n ≠ [] := by
  unfold natDecimal
  by_cases h0 : n = 0
  · simp [h0]
  · rw [if_neg h0]
    match hf : n, h0 with
    | m + 1, _ =>
      simp [natDigitsF]

theorem digitRun_split : ∀ (d1 d2 r s : List Char), d1 ++ r = d2 ++ s →
    (∀ c ∈ d1, c.isDigit = true) → (∀ c ∈ d2, c.isDigit = true) →
    headNotDigit r → headNotDigit s → d1 = d2 ∧ r = s := by
  intro d1
  induction d1 with
  | nil =>
    intro d2 r s h a1 a2 hr hs
    cases d2 with
    | nil => simpa using h
    | cons c d2 =>
      simp only [List.nil_append, List.cons_append] at h
      subst h
      have hd : c.isDigit = true := a2 c (by simp)
      simp [headNotDigit, hd] at hr
  | cons c d1 ih =>
    intro d2 r s h a1 a2 hr hs
    cases d2 with
    | nil =>
      simp only [List.cons_append, List.nil_append] at h
      subst h
      have hd : c.isDigit = true := a1 c (by simp)
      simp [headNotDigit, hd] at hs
    | cons c2 d2 =>
      simp only [List.cons_append, List.cons.injEq] at h
      obtain ⟨hc, ht⟩ := h
      subst hc
      obtain ⟨h1, h2⟩ := ih d2 r s ht (fun x hx => a1 x (by simp [hx]))
        (fun x hx => a2 x (by simp [hx])) hr hs
      exact ⟨by rw [h1], h2⟩

theorem intRepr_pre_inj (i j : Int) (r s : List Char)
    (h : intRepr i ++ r = intRepr j ++ s) (hr : headNotDigit r) (hs : headNotDigit s) :
    i = j ∧ r = s := by
  unfold intRepr at h
  have hdash : ('-' : Char).isDigit = false := by decide
  split_ifs at h with hi hj hj
  · -- both negative
    simp only [List.cons_append, List.cons.injEq] at h
    obtain ⟨h1, h2⟩ := digitRun_split _ _ _ _ h.2 (natDecimal_digits _) (natDecimal_digits _) hr hs
    have : i.natAbs = j.natAbs := by
      have := congrArg decVal h1
      rwa [decVal_natDecimal, decVal_natDecimal] at this
    exact ⟨by omega, h2⟩
  · -- i negative, j not
    exfalso
    obtain ⟨c, t, hct⟩ : ∃ c t, natDecimal j.natAbs = c :: t := by
      cases hnd : natDecimal j.natAbs with
      | nil => exact absurd hnd (natDecimal_ne_nil _)
      | cons c t => exact ⟨c, t, rfl⟩
    rw [hct] at h
    simp only [List.cons_append, List.cons.injEq] at h
    have : c.isDigit = true := natDecimal_digits _ c (by rw [hct]; simp)
    rw [← h.1] at this
    simp [hdash] at this
  · exfalso
    obtain ⟨c, t, hct⟩ : ∃ c t, natDecimal i.natAbs = c :: t := by
      cases hnd : natDecimal i.natAbs with
      | nil => exact absurd hnd (natDecimal_ne_nil _)
      | cons c t => exact ⟨c, t, rfl⟩
    rw [hct] at h
    simp only [List.cons_append, List.cons.injEq] at h
    have : c.isDigit = true := natDecimal_digits _ c (by rw [hct]; simp)
    rw [h.1] at this
    simp [hdash] at this
  · -- both nonnegative
    obtain ⟨h1, h2⟩ := digitRun_split _ _ _ _ h (natDecimal_digits _) (natDecimal_digits _) hr hs
    have : i.natAbs = j.natAbs := by
      have := congrArg decVal h1
      rwa [decVal_natDecimal, decVal_natDecimal] at this
    exact ⟨by omega, h2⟩

theorem hexVal_digit : ∀ m, m < 16 →
    hexVal (Char.ofNat (if m < 10 then 48 + m else 87 + m)) = m := by decide

theorem unescStream_quote (r : List Char) : unescStream ('"' :: r) = some ([], r) := by
  conv_lhs => rw [unescStream.eq_def]
  rfl

theorem unescStream_backslash (e : Char) (rest2 : List Char) (he : ¬ e = 'u') :
    unescStream ('\\' :: e :: rest2) =
      match unescStream rest2 with
      | some (l, r) => some (unescCharOf e :: l, r)
      | none => none := by
  conv_lhs => rw [unescStream.eq_def]
  show (if e = 'u' then _ else _) = _
  rw [if_neg he]

theorem unescStream_u (a b d1 d2 : Char) (rest3 : List Char) :
    unescStream ('\\' :: 'u' :: a :: b :: d1 :: d2 :: rest3) =
      match unescStream rest3 with
      | some (l, r) => some (Char.ofNat (16 * hexVal d1 + hexVal d2) :: l, r)
      | none => none := by
  conv_lhs => rw [unescStream.eq_def]
  rfl

theorem unescStream_plain (c : Char) (rest : List Char) (h1 : ¬ c = '"') (h2 : ¬ c = '\\') :
    unescStream (c :: rest) =
      match unescStream rest with
      | some (l, r) => some (c :: l, r)
      | none => none := by
  conv_lhs => rw [unescStream.eq_def]
  show (if c = '"' then _ else _) = _
  rw [if_neg h1, if_neg h2]

theorem escChar_plain (c : Char) (h1 : ¬ c = '"') (h2 : ¬ c = '\\') (h3 : ¬ c.toNat < 32) :
    escChar c = [c] := by
  have e10 : ¬ c = Char.ofNat 10 := fun e => h3 (by rw [e]; decide)
  have e13 : ¬ c = Char.ofNat 13 := fun e => h3 (by rw [e]; decide)
  have e9 : ¬ c = Char.ofNat 9 := fun e => h3 (by rw [e]; decide)
  have e8 : ¬ c = Char.ofNat 8 := fun e => h3 (by rw [e]; decide)
  have e12 : ¬ c = Char.ofNat 12 := fun e => h3 (by rw [e]; decide)
  simp [escChar, h1, h2, e10, e13, e9, e8, e12, h3]

theorem escChar_ctrl (c : Char) (h0 : c.toNat < 32)
    (e10 : ¬ c = Char.ofNat 10) (e13 : ¬ c = Char.ofNat 13) (e9 : ¬ c = Char.ofNat 9)
    (e8 : ¬ c = Char.ofNat 8) (e12 : ¬ c = Char.ofNat 12) :
    escChar c = ['\\', 'u', '0', '0', Char.ofNat (48 + c.toNat / 16),
      Char.ofNat (if c.toNat % 16 < 10 then 48 + c.toNat % 16 else 87 + c.toNat % 16)] := by
  have h1 : ¬ c = '"' := fun e => by rw [e] at h0; exact absurd h0 (by decide)
  have h2 : ¬ c = '\\' := fun e => by rw [e] at h0; exact absurd h0 (by decide)
  have hd : c.toNat / 16 < 10 := by omega
  simp only [escChar, h1, h2, e10, e13, e9, e8, e12, h0, if_false, ite_false, if_neg, if_pos,
    not_false_iff, if_true, ite_true]
  rw [if_pos hd]

theorem unesc_roundtrip (a : List Char) (r : List Char) :
    unescStream ((a.map escChar).flatten ++ '"' :: r) = some (a, r) := by
  induction a with
  | nil => exact unescStream_quote r
  | cons c a ih =>
    simp only [List.map_cons, List.flatten_cons, List.append_assoc]
    by_cases h1 : c = '"'
    · subst h1
      show unescStream ('\\' :: '"' :: ((List.map escChar a).flatten ++ '\"' :: r)) = _
      rw [unescStream_backslash _ _ (by decide), ih]
      rfl
    · by_cases h2 : c = '\\'
      · subst h2
        show unescStream ('\\' :: '\\' :: ((List.map escChar a).flatten ++ '\"' :: r)) = _
        rw [unescStream_backslash _ _ (by decide), ih]
        rfl
      · by_cases e10 : c = Char.ofNat 10
        · subst e10
          show unescStream ('\\' :: 'n' :: ((List.map escChar a).flatten ++ '\"' :: r)) = _
          rw [unescStream_backslash _ _ (by decide), ih]
          rfl
        · by_cases e13 : c = Char.ofNat 13
          · subst e13
            show unescStream ('\\' :: 'r' :: ((List.map escChar a).flatten ++ '\"' :: r)) = _
            rw [unescStream_backslash _ _ (by decide), ih]
            rfl
          · by_cases e9 : c = Char.ofNat 9
            · subst e9
              show unescStream ('\\' :: 't' :: ((List.map escChar a).flatten ++ '\"' :: r)) = _
              rw [unescStream_backslash _ _ (by decide), ih]
              rfl
            · by_cases e8 : c = Char.ofNat 8
              · subst e8
                show unescStream ('\\' :: 'b' :: ((List.map escChar a).flatten ++ '\"' :: r)) = _
                rw [unescStream_backslash _ _ (by decide), ih]
                rfl
              · by_cases e12 : c = Char.ofNat 12
                · subst e12
                  show unescStream ('\\' :: 'f' :: ((List.map escChar a).flatten ++ '\"' :: r)) = _
                  rw [unescStream_backslash _ _ (by decide), ih]
                  rfl
                · by_cases h0 : c.toNat < 32
                  · rw [escChar_ctrl c h0 e10 e13 e9 e8 e12]
                    show unescStream ('\\' :: 'u' :: '0' :: '0' ::
                      Char.ofNat (48 + c.toNat / 16) ::
                      Char.ofNat (if c.toNat % 16 < 10 then 48 + c.toNat % 16
                        else 87 + c.toNat % 16) :: ((List.map escChar a).flatten ++ '\"' :: r)) = _
                    rw [unescStream_u, ih]
                    have hv1 : hexVal (Char.ofNat (48 + c.toNat / 16)) = c.toNat / 16 := by
                      have h := hexVal_digit (c.toNat / 16) (by omega)
                      rwa [if_pos (by omega : c.toNat / 16 < 10)] at h
                    have hv2 : hexVal (Char.ofNat (if c.toNat % 16 < 10 then 48 + c.toNat % 16
                        else 87 + c.toNat % 16)) = c.toNat % 16 := hexVal_digit _ (by omega)
                    rw [hv1, hv2]
                    rw [show (16 : Nat) * (c.toNat / 16) + c.toNat % 16 = c.toNat from by omega,
                      Char.ofNat_toNat]
                  · rw [escChar_plain c h1 h2 h0]
                    show unescStream (c :: ((List.map escChar a).flatten ++ '\"' :: r)) = _
                    rw [unescStream_plain c _ h1 h2, ih]

theorem pyStrLit_pre_inj (a b : List Char) (r s : List Char)
    (h : (a.map escChar).flatten ++ '"' :: r = (b.map escChar).flatten ++ '"' :: s) :
    a = b ∧ r = s := by
  have ha := unesc_roundtrip a r
  rw [h, unesc_roundtrip b s] at ha
  simpa [Prod.ext_iff] using ha.symm

theorem jsonHeadTag_canon (v : PyVal) (r : List Char) :
    jsonHeadTag (canonChars v ++ r) = tagOf v := by
  cases v with
  | vNull => rfl
  | vBool b => cases b <;> rfl
  | vNaN => rfl
  | vStr s => rfl
  | vList xs => rfl
  | vDict fs => rfl
  | vInt n =>
    show jsonHeadTag (intRepr n ++ r) = 8
    unfold intRepr
    split_ifs with hi
    · rfl
    · obtain ⟨c, t, hct⟩ : ∃ c t, natDecimal n.natAbs = c :: t := by
        cases hnd : natDecimal n.natAbs with
        | nil => exact absurd hnd (natDecimal_ne_nil _)
        | cons c t => exact ⟨c, t, rfl⟩
      rw [hct]
      have hd : c.isDigit = true := natDecimal_digits _ c (by rw [hct]; simp)
      have n1 : ¬ c = 'n' := fun e => by rw [e] at hd; exact absurd hd (by decide)
      have n2 : ¬ c = 't' := fun e => by rw [e] at hd; exact absurd hd (by decide)
      have n3 : ¬ c = 'f' := fun e => by rw [e] at hd; exact absurd hd (by decide)
      have n4 : ¬ c = 'N' := fun e => by rw [e] at hd; exact absurd hd (by decide)
      have n5 : ¬ c = '"' := fun e => by rw [e] at hd; exact absurd hd (by decide)
      have n6 : ¬ c = Char.ofNat 91 := fun e => by rw [e] at hd; exact absurd hd (by decide)
      have n7 : ¬ c = Char.ofNat 123 := fun e => by rw [e] at hd; exact absurd hd (by decide)
      simp [jsonHeadTag, n1, n2, n3, n4, n5, n6, n7, hd]

theorem tagOf_pos (v : PyVal) : 1 ≤ tagOf v := by
  cases v with
  | vNull => decide
  | vBool b => cases b <;> decide
  | vInt n => show (1 : Nat) ≤ 8; decide
  | vNaN => decide
  | vStr s => show (1 : Nat) ≤ 5; decide
  | vList xs => show (1 : Nat) ≤ 6; decide
  | vDict fs => show (1 : Nat) ≤ 7; decide

theorem headNotDigit_rbrack (r : List Char) : headNotDigit (Char.ofNat 93 :: r) := by
  show (Char.ofNat 93).isDigit = false
  decide

theorem headNotDigit_rbrace (r : List Char) : headNotDigit (Char.ofNat 125 :: r) := by
  show (Char.ofNat 125).isDigit = false
  decide

theorem headNotDigit_comma (r : List Char) : headNotDigit (',' :: r) := by
  show (',').isDigit = false
  decide

theorem canonList_cons_eq (x : PyVal) (tl : PyList) :
    canonListChars (.cons x tl) = canonChars x ++
      (match tl with
       | .nil => []
       | .cons y tl2 => ',' :: canonListChars (.cons y tl2)) := by
  cases tl <;> simp [canonListChars]

theorem canonFields_cons_eq (k : String) (v : PyVal) (tl : PyFields) :
    canonFieldsChars (.cons k v tl) = pyStrLit k ++ ':' :: (canonChars v ++
      (match tl with
       | .nil => []
       | .cons k2 v2 tl2 => ',' :: canonFieldsChars (.cons k2 v2 tl2))) := by
  cases tl <;> simp [canonFieldsChars]

mutual

theorem canon_pinj : ∀ (v w : PyVal) (r s : List Char),
    canonChars v ++ r = canonChars w ++ s → headNotDigit r → headNotDigit s →
    v = w ∧ r = s
  | v, w, r, s, h, hr, hs => by
    have htag : tagOf v = tagOf w := by
      rw [← jsonHeadTag_canon v r, ← jsonHeadTag_canon w s, h]
    rcases v with _ | (_ | _) | i | _ | a | xs | fs <;>
      rcases w with _ | (_ | _) | j | _ | b | ys | gs <;>
        (try (exfalso; simp only [tagOf] at htag; omega))
    · exact ⟨rfl, by simpa [canonChars] using h⟩
    · exact ⟨rfl, by simpa [canonChars] using h⟩
    · exact ⟨rfl, by simpa [canonChars] using h⟩
    · -- integers
      simp only [canonChars] at h
      obtain ⟨h1, h2⟩ := intRepr_pre_inj i j r s h hr hs
      exact ⟨by rw [h1], h2⟩
    · exact ⟨rfl, by simpa [canonChars] using h⟩
    · -- strings
      simp only [canonChars, pyStrLit, List.cons_append, List.append_assoc,
        List.cons.injEq, true_and] at h
      obtain ⟨h1, h2⟩ := pyStrLit_pre_inj a.data b.data r s h
      have hab : a = b := by
        cases a; cases b; exact congrArg String.mk h1
      exact ⟨by rw [hab], h2⟩
    · -- lists
      simp only [canonChars, List.cons_append, List.append_assoc,
        List.cons.injEq, true_and] at h
      obtain ⟨h1, h2⟩ := canonL_pinj xs ys r s h
      exact ⟨by rw [h1], h2⟩
    · -- dicts
      simp only [canonChars, List.cons_append, List.append_assoc,
        List.cons.injEq, true_and] at h
      obtain ⟨h1, h2⟩ := canonF_pinj fs gs r s h
      exact ⟨by rw [h1], h2⟩

theorem canonL_pinj : ∀ (xs ys : PyList) (r s : List Char),
    canonListChars xs ++ Char.ofNat 93 :: r = canonListChars ys ++ Char.ofNat 93 :: s →
    xs = ys ∧ r = s
  | .nil, .nil, r, s, h => by
    refine ⟨rfl, ?_⟩
    simpa [canonListChars] using h
  | .nil, .cons y ys', r, s, h => by
    exfalso
    rw [canonList_cons_eq, List.append_assoc] at h
    simp only [canonListChars, List.nil_append] at h
    have := congrArg jsonHeadTag h
    rw [jsonHeadTag_canon] at this
    have hpos := tagOf_pos y
    have hz : jsonHeadTag (Char.ofNat 93 :: r) = 0 := rfl
    omega
  | .cons x xs', .nil, r, s, h => by
    exfalso
    rw [canonList_cons_eq, List.append_assoc] at h
    simp only [canonListChars, List.nil_append] at h
    have := congrArg jsonHeadTag h.symm
    rw [jsonHeadTag_canon] at this
    have hpos := tagOf_pos x
    have hz : jsonHeadTag (Char.ofNat 93 :: s) = 0 := rfl
    omega
  | .cons x xs', .cons y ys', r, s, h => by
    rw [canonList_cons_eq, canonList_cons_eq, List.append_assoc, List.append_assoc] at h
    rcases xs' with _ | ⟨x2, xs2⟩ <;> rcases ys' with _ | ⟨y2, ys2⟩
    · obtain ⟨h1, h2⟩ := canon_pinj x y _ _ h (by exact headNotDigit_rbrack r)
        (by exact headNotDigit_rbrack s)
      simp only [List.nil_append, List.cons.injEq] at h2
      exact ⟨by rw [h1], h2.2⟩
    · obtain ⟨h1, h2⟩ := canon_pinj x y _ _ h (by exact headNotDigit_rbrack r)
        (by exact headNotDigit_comma _)
      exfalso
      simp only [List.nil_append, List.cons_append, List.cons.injEq] at h2
      exact absurd h2.1 (by decide)
    · obtain ⟨h1, h2⟩ := canon_pinj x y _ _ h (by exact headNotDigit_comma _)
        (by exact headNotDigit_rbrack s)
      exfalso
      simp only [List.nil_append, List.cons_append, List.cons.injEq] at h2
      exact absurd h2.1 (by decide)
    · obtain ⟨h1, h2⟩ := canon_pinj x y _ _ h (by exact headNotDigit_comma _)
        (by exact headNotDigit_comma _)
      simp only [List.cons_append, List.cons.injEq, true_and] at h2
      obtain ⟨h3, h4⟩ := canonL_pinj (.cons x2 xs2) (.cons y2 ys2) r s h2
      exact ⟨by rw [h1, h3], h4⟩

theorem canonF_pinj : ∀ (fs gs : PyFields) (r s : List Char),
    canonFieldsChars fs ++ Char.ofNat 125 :: r = canonFieldsChars gs ++ Char.ofNat 125 :: s →
    fs = gs ∧ r = s
  | .nil, .nil, r, s, h => by
    refine ⟨rfl, ?_⟩
    simpa [canonFieldsChars] using h
  | .nil, .cons k v tl, r, s, h => by
    exfalso
    rw [canonFields_cons_eq] at h
    simp only [canonFieldsChars, List.nil_append, pyStrLit, List.cons_append,
      List.append_assoc, List.cons.injEq] at h
    exact absurd h.1 (by decide)
  | .cons k v tl, .nil, r, s, h => by
    exfalso
    rw [canonFields_cons_eq] at h
    simp only [canonFieldsChars, List.nil_append, pyStrLit, List.cons_append,
      List.append_assoc, List.cons.injEq] at h
    exact absurd h.1 (by decide)
  | .cons k1 v1 tl1, .cons k2 v2 tl2, r, s, h => by
    rw [canonFields_cons_eq, canonFields_cons_eq] at h
    simp only [pyStrLit, List.cons_append, List.append_assoc, List.cons.injEq,
      true_and] at h
    obtain ⟨hk, h2⟩ := pyStrLit_pre_inj k1.data k2.data _ _ h
    have hkk : k1 = k2 := by
      cases k1; cases k2; exact congrArg String.mk hk
    simp only [List.nil_append, List.cons.injEq, true_and] at h2
    rcases tl1 with _ | ⟨k12, v12, tl12⟩ <;> rcases tl2 with _ | ⟨k22, v22, tl22⟩
    · obtain ⟨hv, h3⟩ := canon_pinj v1 v2 _ _ h2 (by exact headNotDigit_rbrace r)
        (by exact headNotDigit_rbrace s)
      simp only [List.nil_append, List.cons.injEq, true_and] at h3
      exact ⟨by rw [hkk, hv], h3⟩
    · obtain ⟨hv, h3⟩ := canon_pinj v1 v2 _ _ h2 (by exact headNotDigit_rbrace r)
        (by exact headNotDigit_comma _)
      exfalso
      simp only [List.nil_append, List.cons_append, List.cons.injEq] at h3
      exact absurd h3.1 (by decide)
    · obtain ⟨hv, h3⟩ := canon_pinj v1 v2 _ _ h2 (by exact headNotDigit_comma _)
        (by exact headNotDigit_rbrace s)
      exfalso
      simp only [List.nil_append, List.cons_append, List.cons.injEq] at h3
      exact absurd h3.1 (by decide)
    · obtain ⟨hv, h3⟩ := canon_pinj v1 v2 _ _ h2 (by exact headNotDigit_comma _)
        (by exact headNotDigit_comma _)
      simp only [List.cons_append, List.cons.injEq, true_and] at h3
      obtain ⟨h4, h5⟩ := canonF_pinj (.cons k12 v12 tl12) (.cons k22 v22 tl22) r s h3
      exact ⟨by rw [hkk, hv, h4], h5⟩

end

/-! ### Arithmetic forms of the bitwise operations used by base64 -/

theorem and3 (x : Nat) : x &&& 3 = x % 4 := by
  have h := Nat.and_pow_two_sub_one_eq_mod x 2
  norm_num at h
  exact h

theorem and15 (x : Nat) : x &&& 15 = x % 16 := by
  have h := Nat.and_pow_two_sub_one_eq_mod x 4
  norm_num at h
  exact h

theorem and63 (x : Nat) : x &&& 63 = x % 64 := by
  have h := Nat.and_pow_two_sub_one_eq_mod x 6
  norm_num at h
  exact h

theorem shr2 (x : Nat) : x >>> 2 = x / 4 := by
  rw [Nat.shiftRight_eq_div_pow]

theorem shr4 (x : Nat) : x >>> 4 = x / 16 := by
  rw [Nat.shiftRight_eq_div_pow]

theorem shr6 (x : Nat) : x >>> 6 = x / 64 := by
  rw [Nat.shiftRight_eq_div_pow]

theorem shl2 (x : Nat) : x <<< 2 = x * 4 := by
  rw [Nat.shiftLeft_eq]

theorem shl4 (x : Nat) : x <<< 4 = x * 16 := by
  rw [Nat.shiftLeft_eq]

theorem shl6 (x : Nat) : x <<< 6 = x * 64 := by
  rw [Nat.shiftLeft_eq]

theorem lor4 (x y : Nat) (hy : y < 4) : x * 4 ||| y = x * 4 + y := by
  have h := (Nat.mul_add_lt_is_or (show y < 2 ^ 2 by norm_num; omega) x).symm
  norm_num at h
  rw [mul_comm x 4]
  exact h

theorem lor16 (x y : Nat) (hy : y < 16) : x * 16 ||| y = x * 16 + y := by
  have h := (Nat.mul_add_lt_is_or (show y < 2 ^ 4 by norm_num; omega) x).symm
  norm_num at h
  rw [mul_comm x 16]
  exact h

theorem lor64 (x y : Nat) (hy : y < 64) : x * 64 ||| y = x * 64 + y := by
  have h := (Nat.mul_add_lt_is_or (show y < 2 ^ 6 by norm_num; omega) x).symm
  norm_num at h
  rw [mul_comm x 64]
  exact h

/-! ### The six-bit values of an encoded quad and their recovery -/

theorem v1_eq (a b : Nat) (hb : b < 256) :
    (a &&& 3) <<< 4 ||| b >>> 4 = (a % 4) * 16 + b / 16 := by
  rw [and3, shl4, shr4, lor16 _ _ (by omega)]

theorem v2_eq (b c : Nat) (hc : c < 256) :
    (b &&& 15) <<< 2 ||| c >>> 6 = (b % 16) * 4 + c / 64 := by
  rw [and15, shl2, shr6, lor4 _ _ (by omega)]

theorem rec1 (a : Nat) (ha : a < 256) :
    (a >>> 2) <<< 2 ||| ((a &&& 3) <<< 4) >>> 4 = a := by
  rw [shr2, shl2, and3, shl4, shr4, lor4 _ _ (by omega)]
  omega

theorem rec2a (a b : Nat) (ha : a < 256) (hb : b < 256) :
    (a >>> 2) <<< 2 ||| ((a &&& 3) <<< 4 ||| b >>> 4) >>> 4 = a := by
  rw [v1_eq a b hb, shr2, shl2, shr4, lor4 _ _ (by omega)]
  omega

theorem rec2b (a b : Nat) (ha : a < 256) (hb : b < 256) :
    (((a &&& 3) <<< 4 ||| b >>> 4) &&& 15) <<< 4 ||| ((b &&& 15) <<< 2) >>> 2 = b := by
  rw [v1_eq a b hb, and15, shl4, and15, shl2, shr2, lor16 _ _ (by omega)]
  omega

theorem rec3b (a b c : Nat) (ha : a < 256) (hb : b < 256) (hc : c < 256) :
    (((a &&& 3) <<< 4 ||| b >>> 4) &&& 15) <<< 4 ||| ((b &&& 15) <<< 2 ||| c >>> 6) >>> 2 = b := by
  rw [v1_eq a b hb, v2_eq b c hc, and15, shl4, shr2, lor16 _ _ (by omega)]
  omega

theorem rec3c (b c : Nat) (hb : b < 256) (hc : c < 256) :
    (((b &&& 15) <<< 2 ||| c >>> 6) &&& 3) <<< 6 ||| (c &&& 63) = c := by
  rw [v2_eq b c hc, and3, shl6, and63, lor64 _ _ (by omega)]
  omega

theorem v0_lt (a : Nat) (ha : a < 256) : a >>> 2 < 64 := by
  rw [shr2]; omega

theorem v1_lt (a b : Nat) (hb : b < 256) : (a &&& 3) <<< 4 ||| b >>> 4 < 64 := by
  rw [v1_eq a b hb]; omega

theorem v2_lt (b c : Nat) (hc : c < 256) : (b &&& 15) <<< 2 ||| c >>> 6 < 64 := by
  rw [v2_eq b c hc]; omega

theorem v3_lt (c : Nat) : c &&& 63 < 64 := by
  rw [and63]; omega

theorem v1h_lt (a : Nat) : (a &&& 3) <<< 4 < 64 := by
  rw [shl4, and3]; omega

theorem v2h_lt (b : Nat) : (b &&& 15) <<< 2 < 64 := by
  rw [shl2, and15]; omega

/-! ### The base64 alphabet lookups -/

theorem b64Index_getD : ∀ v, v < 64 → b64Index (B64_ALPHABET.getD v ' ') = some v := by decide

theorem b64getD_ne_pad : ∀ v, v < 64 → ¬ B64_ALPHABET.getD v ' ' = '=' := by decide

theorem b64getD_kept : ∀ v, v < 64 →
    ((b64Index (B64_ALPHABET.getD v ' ')).isSome || (B64_ALPHABET.getD v ' ' = '=')) = true := by
  decide

/-! ### Structure of the encoded stream -/

theorem enc_nil (fe : Nat) : b64encodeGroups fe [] = [] := by
  cases fe <;> rfl

theorem quads_nil (fq : Nat) : quadsF fq [] = [] := by
  cases fq <;> rfl

theorem b64enc_kept : ∀ (n : Nat) (bs : Bytes) (fe : Nat), bs.length ≤ n →
    (∀ x ∈ bs, x < 256) →
    ∀ ch ∈ b64encodeGroups fe bs, ((b64Index ch).isSome || (ch = '=')) = true := by
  intro n
  induction n with
  | zero =>
    intro bs fe h1 _ ch hch
    rcases bs with _ | ⟨x, t⟩
    · rw [enc_nil] at hch
      exact absurd hch (List.not_mem_nil ch)
    · simp only [List.length_cons] at h1
      omega
  | succ n ih =>
    intro bs fe hn hb ch hch
    rcases fe with _ | fe
    · simp only [b64encodeGroups] at hch
      exact absurd hch (List.not_mem_nil ch)
    rcases bs with _ | ⟨a, _ | ⟨b, _ | ⟨c, tl⟩⟩⟩
    · exact absurd hch (List.not_mem_nil ch)
    · have ha : a < 256 := hb a (by simp)
      simp only [b64encodeGroups, List.take, List.length_cons, List.length_nil, List.getD_cons_zero, List.getD_cons_succ,
        List.append_eq, List.nil_append, List.cons_append, List.drop, enc_nil, List.append_nil] at hch
      simp only [List.mem_cons, List.not_mem_nil, or_false] at hch
      rcases hch with rfl | rfl | rfl | rfl
      · exact b64getD_kept _ (v0_lt a ha)
      · exact b64getD_kept _ (v1h_lt a)
      · decide
      · decide
    · have ha : a < 256 := hb a (by simp)
      have hbb : b < 256 := hb b (by simp)
      simp only [b64encodeGroups, List.take, List.length_cons, List.length_nil, List.getD_cons_zero, List.getD_cons_succ,
        List.append_eq, List.nil_append, List.cons_append, List.drop, enc_nil, List.append_nil] at hch
      simp only [List.mem_cons, List.not_mem_nil, or_false] at hch
      rcases hch with rfl | rfl | rfl | rfl
      · exact b64getD_kept _ (v0_lt a ha)
      · exact b64getD_kept _ (v1_lt a b hbb)
      · exact b64getD_kept _ (v2h_lt b)
      · decide
    · have ha : a < 256 := hb a (by simp)
      have hbb : b < 256 := hb b (by simp)
      have hc : c < 256 := hb c (by simp)
      simp only [b64encodeGroups, List.take, List.length_cons, List.getD_cons_zero, List.getD_cons_succ,
        List.append_eq, List.nil_append, List.cons_append, List.drop] at hch
      simp only [List.mem_cons] at hch
      rcases hch with rfl | rfl | rfl | rfl | hch
      · exact b64getD_kept _ (v0_lt a ha)
      · exact b64getD_kept _ (v1_lt a b hbb)
      · exact b64getD_kept _ (v2_lt b c hc)
      · exact b64getD_kept _ (v3_lt c)
      · have hlen : tl.length ≤ n := by simp only [List.length_cons] at hn; omega
        exact ih tl fe hlen (fun x hx => hb x (by simp [hx])) ch hch

theorem b64enc_len : ∀ (n : Nat) (bs : Bytes) (fe : Nat), bs.length ≤ n → bs.length ≤ fe →
    (b64encodeGroups fe bs).length = 4 * ((bs.length + 2) / 3) := by
  intro n
  induction n with
  | zero =>
    intro bs fe h1 _
    rcases bs with _ | ⟨x, t⟩
    · rw [enc_nil]; rfl
    · simp only [List.length_cons] at h1; omega
  | succ n ih =>
    intro bs fe hn hfe
    rcases bs with _ | ⟨a, _ | ⟨b, _ | ⟨c, tl⟩⟩⟩
    · rw [enc_nil]; rfl
    · rcases fe with _ | fe
      · simp only [List.length_cons] at hfe; omega
      simp only [b64encodeGroups, List.take, List.length_cons, List.length_nil, List.getD_cons_zero, List.getD_cons_succ,
        List.append_eq, List.nil_append, List.cons_append, List.drop, enc_nil, List.append_nil]
    · rcases fe with _ | fe
      · simp only [List.length_cons] at hfe; omega
      simp only [b64encodeGroups, List.take, List.length_cons, List.length_nil, List.getD_cons_zero, List.getD_cons_succ,
        List.append_eq, List.nil_append, List.cons_append, List.drop, enc_nil, List.append_nil]
    · rcases fe with _ | fe
      · simp only [List.length_cons] at hfe; omega
      simp only [b64encodeGroups, List.take, List.length_cons, List.getD_cons_zero, List.getD_cons_succ, List.append_eq, List.nil_append, List.cons_append, List.drop]
      have hlen : tl.length ≤ n := by simp only [List.length_cons] at hn; omega
      have hfe2 : tl.length ≤ fe := by simp only [List.length_cons] at hfe; omega
      rw [ih tl fe hlen hfe2]
      omega

theorem b64Quads_enc : ∀ (n : Nat) (bs : Bytes) (fe fq : Nat), bs.length ≤ n →
    bs.length ≤ fe → bs.length ≤ fq → (∀ x ∈ bs, x < 256) →
    b64Quads (quadsF fq (b64encodeGroups fe bs)) = .ok bs := by
  intro n
  induction n with
  | zero =>
    intro bs fe fq h1 _ _ _
    rcases bs with _ | ⟨x, t⟩
    · rw [enc_nil, quads_nil]; rfl
    · simp only [List.length_cons] at h1; omega
  | succ n ih =>
    intro bs fe fq hn hfe hfq hb
    rcases bs with _ | ⟨a, _ | ⟨b, _ | ⟨c, tl⟩⟩⟩
    · rw [enc_nil, quads_nil]; rfl
    · rcases fe with _ | fe
      · simp only [List.length_cons] at hfe; omega
      rcases fq with _ | fq
      · simp only [List.length_cons] at hfq; omega
      have ha : a < 256 := hb a (by simp)
      have h0 := v0_lt a ha
      have h1 := v1h_lt a
      simp only [b64encodeGroups, List.take, List.length_cons, List.length_nil, List.getD_cons_zero, List.getD_cons_succ,
        List.append_eq, List.nil_append, List.cons_append, List.drop, enc_nil, List.append_nil, quadsF, quads_nil, b64Quads,
        b64Index_getD _ h0, b64Index_getD _ h1, Option.getD_some,
        if_neg (b64getD_ne_pad _ h0), if_neg (b64getD_ne_pad _ h1), if_true]
      rw [rec1 a ha]
    · rcases fe with _ | fe
      · simp only [List.length_cons] at hfe; omega
      rcases fq with _ | fq
      · simp only [List.length_cons] at hfq; omega
      have ha : a < 256 := hb a (by simp)
      have hbb : b < 256 := hb b (by simp)
      have h0 := v0_lt a ha
      have h1 := v1_lt a b hbb
      have h2 := v2h_lt b
      simp only [b64encodeGroups, List.take, List.length_cons, List.length_nil, List.getD_cons_zero, List.getD_cons_succ,
        List.append_eq, List.nil_append, List.cons_append, List.drop, enc_nil, List.append_nil, quadsF, quads_nil, b64Quads,
        b64Index_getD _ h0, b64Index_getD _ h1, b64Index_getD _ h2, Option.getD_some,
        if_neg (b64getD_ne_pad _ h0), if_neg (b64getD_ne_pad _ h1),
        if_neg (b64getD_ne_pad _ h2), if_true]
      rw [rec2a a b ha hbb, rec2b a b ha hbb]
    · rcases fe with _ | fe
      · simp only [List.length_cons] at hfe; omega
      rcases fq with _ | fq
      · simp only [List.length_cons] at hfq; omega
      have ha : a < 256 := hb a (by simp)
      have hbb : b < 256 := hb b (by simp)
      have hc : c < 256 := hb c (by simp)
      have h0 := v0_lt a ha
      have h1 := v1_lt a b hbb
      have h2 := v2_lt b c hc
      have h3 := v3_lt c
      have hlen : tl.length ≤ n := by simp only [List.length_cons] at hn; omega
      have hfe2 : tl.length ≤ fe := by simp only [List.length_cons] at hfe; omega
      have hfq2 : tl.length ≤ fq := by simp only [List.length_cons] at hfq; omega
      have hb2 : ∀ x ∈ tl, x < 256 := fun x hx => hb x (by simp [hx])
      simp only [b64encodeGroups, List.take, List.length_cons, List.getD_cons_zero, List.getD_cons_succ, List.append_eq, List.nil_append, List.cons_append, List.drop,
        List.cons_append, List.nil_append, quadsF, b64Quads,
        b64Index_getD _ h0, b64Index_getD _ h1, b64Index_getD _ h2, b64Index_getD _ h3,
        Option.getD_some,
        if_neg (b64getD_ne_pad _ h0), if_neg (b64getD_ne_pad _ h1),
        if_neg (b64getD_ne_pad _ h2), if_neg (b64getD_ne_pad _ h3)]
      rw [ih tl fe fq hlen hfe2 hfq2 hb2]
      rw [rec2a a b ha hbb, rec3b a b c ha hbb hc, rec3c b c hbb hc]

/-- Round trip of Python's `base64.b64encode`/`b64decode` on genuine byte
strings. -/
theorem b64_roundtrip (bs : Bytes) (hb : ∀ x ∈ bs, x < 256) :
    b64decode (b64encode bs).data = .ok bs := by
  show b64decode (b64encodeGroups bs.length bs) = .ok bs
  simp only [b64decode]
  rw [List.filter_eq_self.mpr (b64enc_kept bs.length bs bs.length le_rfl hb)]
  rw [b64enc_len bs.length bs bs.length le_rfl le_rfl]
  rw [if_neg (by omega)]
  exact b64Quads_enc bs.length bs bs.length (4 * ((bs.length + 2) / 3)) le_rfl le_rfl
    (by omega) hb

/-! ### Injectivity of the UTF-8 encoding -/

theorem utf8Char_pre_inj (c1 c2 : Char) (r s : Bytes)
    (h : utf8Char c1 ++ r = utf8Char c2 ++ s) : c1 = c2 ∧ r = s := by
  suffices hns : c1.toNat = c2.toNat ∧ r = s from ⟨charToNat_inj hns.1, hns.2⟩
  unfold utf8Char at h
  split_ifs at h <;>
    simp only [List.cons_append, List.nil_append, List.cons.injEq] at h <;>
    first
      | exact ⟨h.1, h.2⟩
      | exact ⟨by omega, h.2.2⟩
      | exact ⟨by omega, h.2.2.2⟩
      | exact ⟨by omega, h.2.2.2.2⟩
      | (exfalso; have h1 := h.1; omega)

theorem utf8_flat_inj : ∀ (l1 l2 : List Char),
    (l1.map utf8Char).flatten ++ [] = (l2.map utf8Char).flatten ++ [] → l1 = l2
  | [], [], _ => rfl
  | [], c :: tl, h => by
    exfalso
    simp only [List.map_nil, List.flatten_nil, List.map_cons, List.flatten_cons,
      List.append_nil, List.nil_append] at h
    have := congrArg List.length h
    simp only [List.length_nil, List.length_append] at this
    have h2 : (utf8Char c).length ≠ 0 := by
      unfold utf8Char
      split_ifs <;> simp
    omega
  | c :: tl, [], h => by
    exfalso
    simp only [List.map_nil, List.flatten_nil, List.map_cons, List.flatten_cons,
      List.append_nil, List.nil_append] at h
    have := congrArg List.length h
    simp only [List.length_nil, List.length_append] at this
    have h2 : (utf8Char c).length ≠ 0 := by
      unfold utf8Char
      split_ifs <;> simp
    omega
  | c1 :: tl1, c2 :: tl2, h => by
    simp only [List.map_cons, List.flatten_cons, List.append_nil, List.append_assoc] at h
    obtain ⟨hc, ht⟩ := utf8Char_pre_inj c1 c2 _ _ h
    have := utf8_flat_inj tl1 tl2 (by simp only [List.append_nil]; exact ht)
    rw [hc, this]

theorem utf8Encode_inj (s1 s2 : String) (h : utf8Encode s1 = utf8Encode s2) : s1 = s2 := by
  have hd : s1.data = s2.data := by
    apply utf8_flat_inj
    simp only [List.append_nil]
    exact h
  cases s1; cases s2
  exact congrArg String.mk hd

/-! ### Injectivity of the canonical JSON encoding -/

theorem canonical_json_inj (v w : PyVal) (h : canonical_json v = canonical_json w) : v = w := by
  have hd : canonChars v = canonChars w := congrArg String.data h
  have h2 := canon_pinj v w [] [] (by rw [List.append_nil, List.append_nil]; exact hd)
    trivial trivial
  exact h2.1

/-! ### Byte ranges of Ed25519 signatures -/

theorem le32_lt (n : Nat) : ∀ x ∈ le32 n, x < 256 := by
  intro x hx
  simp only [le32, List.mem_map] at hx
  obtain ⟨i, _, rfl⟩ := hx
  have h := Nat.and_le_right (n := n >>> (8 * i)) (m := 255)
  omega

theorem sign_bytes_lt (seed msg : Bytes) : ∀ x ∈ ed25519Sign seed msg, x < 256 := by
  intro x hx
  rcases List.mem_append.mp hx with h | h
  · exact le32_lt _ x h
  · exact le32_lt _ x h

/-! ### The shape of honest attestation strings -/

theorem str_append_data (a b : String) : (a ++ b).data = a.data ++ b.data := rfl

theorem splitOnce_ed25519 (s : String) :
    splitOnce ':' ("ed25519:" ++ s) = some ("ed25519", s) := by
  have hdata : ("ed25519:" ++ s).data = 'e' :: 'd' :: '2' :: '5' :: '5' :: '1' :: '9' :: ':' :: s.data := rfl
  simp only [splitOnce, hdata, List.takeWhile_cons]
  simp

theorem colon_append_ne_empty (p s : String) (c : Char) (t : List Char) (hp : p.data = c :: t) :
    ¬ (p ++ s) = "" := by
  intro h
  have h2 := congrArg String.data h
  rw [str_append_data, hp] at h2
  have h3 : ("" : String).data = [] := rfl
  rw [h3] at h2
  simp at h2

/-- C3 (amended): for every seed, payload and tampered operation data, the
honest attestation built by signing the canonical bytes of the payload is
rejected (a non-empty error list) on the tampered data, PROVIDED the base64
signature does not start with `mock:` or `sig` (those bypass verification —
see the counterexample), and the signature does not also verify for the
tampered message (an instance of Ed25519 binding).  The resolver is
arbitrary: resolution failures and wrong-length keys also produce errors. -/
theorem C3_tamper_detected_unless_sig_bypass
    (seed : Bytes) (payload od' : PyFields)
    (resolve : String → Except ResErr Bytes) (ctx : String)
    (hmut : popAttestation od' ≠ payload)
    (hnosig : ¬ ("mock:".data.isPrefixOf
        (b64encode (ed25519Sign seed (utf8Encode (canonical_json (.vDict payload))))).data = true
      ∨ "sig".data.isPrefixOf
        (b64encode (ed25519Sign seed (utf8Encode (canonical_json (.vDict payload))))).data = true))
    (hbind : ∀ pk, resolve (didKeyOf (ed25519PublicKey seed)) = .ok pk →
      ed25519Verify pk (ed25519Sign seed (utf8Encode (canonical_json (.vDict payload))))
        (utf8Encode (canonical_json (.vDict (popAttestation od')))) = true →
      utf8Encode (canonical_json (.vDict (popAttestation od')))
        = utf8Encode (canonical_json (.vDict payload))) :
    verify_signature (prodEnv resolve) (honestAttestation seed payload) od' ctx ≠ [] := by
  have hatt1 : (honestAttestation seed payload).signature
      = "ed25519:" ++ b64encode (ed25519Sign seed (utf8Encode (canonical_json (.vDict payload)))) := rfl
  have hatt2 : (honestAttestation seed payload).signer = didKeyOf (ed25519PublicKey seed) := rfl
  have hsig_ne : ¬ (honestAttestation seed payload).signature = "" := by
    rw [hatt1]
    exact colon_append_ne_empty _ _ 'e' _ rfl
  have hsigner_ne : ¬ (honestAttestation seed payload).signer = "" := by
    rw [hatt2]
    exact colon_append_ne_empty _ _ 'd' _ rfl
  unfold verify_signature
  rw [show (prodEnv resolve).cryptographyAvailable = true from rfl]
  rw [if_neg (show ¬ ¬ (true : Bool) = true by simp)]
  rw [if_neg (show ¬ ((honestAttestation seed payload).signature = ""
      ∨ (honestAttestation seed payload).signer = "") from by
    rintro (h | h)
    exacts [hsig_ne h, hsigner_ne h])]
  rw [hatt1, splitOnce_ed25519]
  dsimp only
  rw [if_pos rfl]
  rw [if_neg hnosig]
  rw [hatt2]
  rw [show (prodEnv resolve).resolver = some resolve from rfl]
  dsimp only
  rcases hres : resolve (didKeyOf (ed25519PublicKey seed)) with e | pk
  · simp
  · dsimp only
    rw [b64_roundtrip _ (sign_bytes_lt seed _)]
    dsimp only
    rw [show (prodEnv resolve).ed25519Check = ed25519LibCheck from rfl]
    unfold ed25519LibCheck
    by_cases hlen : pk.length = 32
    · rw [if_neg (show ¬ pk.length ≠ 32 from by omega)]
      by_cases hv : ed25519Verify pk
          (ed25519Sign seed (utf8Encode (canonical_json (.vDict payload))))
          (utf8Encode (canonical_json (.vDict (popAttestation od')))) = true
      · exfalso
        have hmsg := hbind pk hres hv
        have hcan := utf8Encode_inj _ _ hmsg
        have hval := canonical_json_inj _ _ hcan
        injection hval with hfs
        exact hmut hfs
      · rw [if_neg hv]
        simp
    · rw [if_pos hlen]
      simp

/-- Witness for C3: the keypair from seed `0,1,…,31`, payload `{"id":"op1"}`
mutated to `{"id":"op2"}`, resolved by the real `did:key` resolver; all
side conditions hold and verification reports failure. -/
theorem C3_tamper_detected_unless_sig_bypass_witness :
    verify_signature (prodEnv resolve_did_key) (honestAttestation c3Seed c3Payload)
      c3Mutated "operation op1" ≠ [] :=
  C3_tamper_detected_unless_sig_bypass c3Seed c3Payload c3Mutated resolve_did_key "operation op1"
    (fun h => absurd (congrArg (fun fs => canonical_json (.vDict fs)) h) (by decide))
    (by decide)
    (fun pk hpk hv => by
      have h1 : resolve_did_key (didKeyOf (ed25519PublicKey c3Seed))
          = .ok (ed25519PublicKey c3Seed) := by decide
      rw [h1] at hpk
      injection hpk with hpk2
      rw [← hpk2] at hv
      exact absurd hv (by decide))

/-- C3 counterexample: the honest attestation of `cxPayload` has a base64
signature starting with `sig`, so `_verify_signature` accepts the TAMPERED
operation data `cxMutated` with an empty error list, although its signed
canonical bytes differ from the signed payload's. -/
theorem C3_sig_prefix_bypass_accepts_tampered :
    verify_signature (prodEnv resolve_did_key) (honestAttestation c3Seed cxPayload)
      cxMutated "operation op1" = []
    ∧ canonical_json (.vDict (popAttestation cxMutated)) ≠ canonical_json (.vDict cxPayload) := by
  constructor
  · decide
  · decide

end GG
